import Mathlib

/-!
Verification development for the flax_rl repository.

Shallow embeddings of the pieces of the repository that the claims are
about, each translated from the corresponding Python source:

* `rl_tools/envs/wrappers/vector.py` — the subprocess vectorized
  environment pool (`step_async`, the worker `step` command handler and
  its auto-reset policy, `step_wait` info merging via `_add_info`);
* `rl_tools/algos/pipeline.py` — the experience-processing pipeline
  (`process_experience_pipeline_fn`) and the update pipeline
  (`update_pipeline`);
* `rl_tools/save.py` — `SaverContext.update` and `SaverContext.__exit__`;
* `rl/algos/td3.py`, `rl/algos/dqn.py`, `rl_tools/algos/named/sac.py` —
  training-state factories, exploration entry points and update steps.

Numeric leaves are modelled as rationals; JAX PRNG keys are modelled as
an abstract key type together with abstract splitting functions, since
the numeric backend is an external collaborator of the library.
-/

namespace FlaxRL

/-- Neural-network parameters as a flat list of numeric leaves
(the code treats them as a nested mapping of arrays; Polyak smoothing
acts leaf-wise, so a flat leaf list captures it). -/
abbrev Params := List ℚ

/-- `optax.incremental_update new old tau` : leaf-wise
`tau * new + (1 - tau) * old` (Polyak averaging). -/
def incrementalUpdate (tau : ℚ) (newP oldP : Params) : Params :=
  List.zipWith (fun n o => tau * n + (1 - tau) * o) newP oldP

/-! ## Vectorized environment pool: supervisor side (`SubProcVecParallelEnv`) -/

/-- The protocol error the spec says a second `step_async` must raise. -/
inductive ProtocolError where
  | pendingRequest
  deriving DecidableEq

/-- A message the supervisor sends down a worker pipe.  A `step` message
carries the per-worker slice of the multi-agent action dictionary
(`{agent: action[i]}` built in `step_async`); out-of-range indexing is
modelled by `Option`. -/
inductive PoolMsg (A : Type) where
  | step (payload : List (String × Option A))
  | reset
  | close

/-- Supervisor-side state of `SubProcVecParallelEnv`: the number of
worker connections, the `waiting` flag, the `closed` flag, and the log
of messages sent so far (in send order; messages go to the workers in
worker-index order, one per worker per `step_async`). -/
structure SubProcVec (A : Type) where
  numEnvs : Nat
  waiting : Bool
  closed : Bool
  msgLog : List (PoolMsg A)

/-- `SubProcVecParallelEnv.step_async` (vector.py lines 245-253):
builds `unstack_actions` (one per-agent slice per worker), sends one
`("step", action)` message per worker connection, and sets
`self.waiting = True`.  The source contains no check of `self.waiting`
and no raise; the `Except` result records that no error path exists. -/
def stepAsync (s : SubProcVec A) (actions : List (String × List A)) :
    Except ProtocolError (SubProcVec A) :=
  let unstack := (List.range s.numEnvs).map
    (fun i => actions.map (fun p => (p.1, p.2.get? i)))
  Except.ok { s with
    msgLog := s.msgLog ++ unstack.map PoolMsg.step
    waiting := true }

/-! ## Checkpoint saver (`SaverContext`, save.py lines 75-105) -/

/-- `SaverContext` state: the configured `save_frequency`, and the most
recently recorded step and state (`cur_step`, `cur_state`;
initially `0` and `None`). -/
structure SaverContext (St : Type) where
  saveFrequency : Int
  curStep : Nat
  curState : Option St

/-- `SaverContext.__init__` with a given save frequency. -/
def saverInit (St : Type) (f : Int) : SaverContext St :=
  { saveFrequency := f, curStep := 0, curState := none }

/-- `SaverContext.update` (save.py lines 84-94).  The context always
records `(step, state)` first; then
* if `save_frequency < 0`, it returns without saving (`ok false`);
* otherwise it evaluates `step % save_frequency`, which raises
  `ZeroDivisionError` when the frequency is `0` (`error ()`);
* it saves exactly when the remainder is `0` (`ok true`). -/
def saverUpdate (c : SaverContext St) (step : Nat) (st : St) :
    SaverContext St × Except Unit Bool :=
  let c' := { c with curStep := step, curState := some st }
  if c.saveFrequency < 0 then (c', Except.ok false)
  else if c.saveFrequency = 0 then (c', Except.error ())
  else if (step : Int) % c.saveFrequency ≠ 0 then (c', Except.ok false)
  else (c', Except.ok true)

/-- `SaverContext.__exit__` (save.py lines 96-105): persists the
recorded `(cur_step, cur_state)` pair unless no state was ever
recorded (`cur_state is None`). -/
def saverExit (c : SaverContext St) : Option (Nat × St) :=
  c.curState.map (fun st => (c.curStep, st))

/-- A sequence of `update` calls threaded through the context
(only the recording part matters for what `__exit__` persists). -/
def saverRun (c : SaverContext St) (l : List (Nat × St)) : SaverContext St :=
  l.foldl (fun a p => (saverUpdate a p.1 p.2).1) c

/-! ## String-keyed dictionaries as association lists

Python dictionaries are modelled as association lists: `aLookup` is key
lookup, `aSet` is `d[k] = v` (replace in place, else append), `dunion`
is the in-place union `d1 |= d2` (iterate over `d2`, later values win). -/

def aLookup : List (String × α) → String → Option α
  | [], _ => none
  | p :: rest, k => if p.1 = k then some p.2 else aLookup rest k

def aSet : List (String × α) → String → α → List (String × α)
  | [], k, v => [(k, v)]
  | p :: rest, k, v => if p.1 = k then (k, v) :: rest else p :: aSet rest k v

def dunion (a b : List (String × α)) : List (String × α) :=
  b.foldl (fun acc p => aSet acc p.1 p.2) a

/-! ## Update pipeline (`pipeline.py` lines 96-130) -/

/-- An `UpdateModule`: a pure update function paired with its state.
The update function may fail (an exception in the Python code),
modelled by `Option`; when it succeeds it returns the new state and a
diagnostics dictionary. -/
structure UpdateModuleE (S B D K : Type) where
  update_fn : S → K → B → Option (S × List (String × D))
  state : S

/-- The sub-key consumed by stage `i` of a pipeline seeded with `key`:
each iteration executes `key, _key = jax.random.split(key, 2)` and
hands `_key` (the second component) to the stage, carrying the first
component to the next iteration. -/
def subkeyAt (split : K → K × K) (key : K) : Nat → K
  | 0 => (split key).2
  | n + 1 => subkeyAt split ((split key).1) n

/-- The loop body of `update_pipeline` (pipeline.py lines 121-130).
The first component of the result is the caller-visible module list:
the source assigns `update_modules[i] = module.replace(state=state)`
into the list it was passed, so when stage `i` raises, the list holds
the updated modules at positions before `i` and the original modules
from `i` on.  The second component is `some info` when every stage
succeeded (`info` accumulated by `info |= module_info`), `none` when
some stage raised. -/
def updatePipelineGo (split : K → K × K) (batch : B) :
    List (UpdateModuleE S B D K) → K → List (String × D) →
    List (UpdateModuleE S B D K) × Option (List (String × D))
  | [], _, acc => ([], some acc)
  | m :: rest, key, acc =>
    let ks := split key
    match m.update_fn m.state ks.2 batch with
    | none => (m :: rest, none)
    | some p =>
      let r := updatePipelineGo split batch rest ks.1 (dunion acc p.2)
      ({ m with state := p.1 } :: r.1, r.2)

/-- `update_pipeline(update_modules, key, batch)` (pipeline.py
lines 116-130), starting from the empty diagnostics dictionary. -/
def updatePipeline (split : K → K × K) (mods : List (UpdateModuleE S B D K))
    (key : K) (batch : B) :
    List (UpdateModuleE S B D K) × Option (List (String × D)) :=
  updatePipelineGo split batch mods key []

/-- What stage `i` of the pipeline computes: its own module's update
function applied to its own state, the `i`-th split sub-key, and the
shared batch (stages touch only their own state). -/
def stageOut (split : K → K × K) (key : K) (batch : B)
    (mods : List (UpdateModuleE S B D K)) (i : Nat) :
    Option (S × List (String × D)) :=
  (mods.get? i).bind (fun m => m.update_fn m.state (subkeyAt split key i) batch)

/-- `Option.orElse` without the thunk: `oElse a b` is `a` when `a` is
`some`, else `b`. -/
def oElse : Option α → Option α → Option α
  | some v, _ => some v
  | none, b => b

/-- The later-wins merge semantics of the diagnostics dictionaries:
scanning the stages in list order with their split sub-keys, the value
key `q` ends up with is the report of the last stage reporting `q`
(a later stage's report overrides an earlier one's). -/
def lastReportedGo (split : K → K × K) (batch : B) :
    List (UpdateModuleE S B D K) → K → String → Option D
  | [], _, _ => none
  | m :: rest, key, q =>
    oElse (lastReportedGo split batch rest ((split key).1) q)
      ((m.update_fn m.state ((split key).2) batch).bind (fun p => aLookup p.2 q))

/-! ## Experience pipeline (`pipeline.py` lines 15-93) -/

/-- An `ExperienceTransform`: a pure transform function with its state. -/
structure ExperienceTransformE (S E K : Type) where
  process_experience_fn : S → K → E → E
  state : S

/-- `process_experience_fn` inside `process_experience_pipeline_fn`
(pipeline.py lines 28-34): thread the experience through every
transform, passing the same key to each stage. -/
def applyTransforms (ts : List (ExperienceTransformE S E K)) (key : K) (e : E) : E :=
  ts.foldl (fun acc t => t.process_experience_fn t.state key acc) e

/-- The `vectorized` regime (pipeline.py lines 82-89): the experience
carries an environment axis, modelled as a list of per-environment
columns; `keys = jax.random.split(key, n_envs)` and the stage stack is
mapped over environment `i` with `keys[i]`.  (The final reshape to
a flat batch is a bijective reindexing and is not modelled.) -/
def processVectorized (splitN : K → Nat → List K)
    (ts : List (ExperienceTransformE S E K)) (key : K) (cols : List E) : List E :=
  ((splitN key cols.length).zip cols).map (fun kc => applyTransforms ts kc.1 kc.2)

/-- The `parallel` regime (pipeline.py lines 61-80): the experience is
an agent-keyed mapping; iterating in its order, each agent consumes
`key, keys[agent] = jax.random.split(key, 2)` and the stage stack is
applied per agent.  (The final stack-and-reshape is not modelled.) -/
def processParallel (split : K → K × K)
    (ts : List (ExperienceTransformE S E K)) :
    K → List (String × E) → List (String × E)
  | _, [] => []
  | key, a :: rest =>
    let ks := split key
    (a.1, applyTransforms ts ks.2 a.2) :: processParallel split ts ks.1 rest

/-! ## Worker step handler (`vector.py` lines 157-198) -/

/-- A value stored in an info dictionary: either an ordinary value, a
stashed observation (`final_observation`), or a stashed whole info
dictionary (`final_info`). -/
inductive WVal (O B : Type) where
  | base : B → WVal O B
  | obsV : O → WVal O B
  | infoV : List (String × WVal O B) → WVal O B

/-- What `env.step` returns to the worker: multi-agent observation,
reward, terminated and truncated dictionaries, and an info dictionary. -/
structure StepOut (O B : Type) where
  obs : O
  rew : List (String × ℚ)
  terminated : List (String × Bool)
  truncated : List (String × Bool)
  info : List (String × WVal O B)

/-- The worker's environment, an opaque `ParallelEnv` collaborator with
explicit state threading. -/
structure PEnv (S O B A : Type) where
  stepFn : S → A → S × StepOut O B
  resetFn : S → S × (O × List (String × WVal O B))

/-- `any(terminated.values()) or any(truncated.values())`. -/
def anyEnded (o : StepOut O B) : Bool :=
  o.terminated.any (fun p => p.2) || o.truncated.any (fun p => p.2)

/-- The worker's `step` command branch (vector.py lines 180-193): step
the environment; if any agent terminated or truncated, reset the
environment, reply with the post-reset observation, and stash the
pre-reset observation and info under `final_observation` / `final_info`
in the post-reset info; otherwise reply with the step output as is.
The result is the post-command environment state and the reply
(the source pairs the reply with `True`). -/
def workerStep (env : PEnv S O B A) (s : S) (a : A) : S × (StepOut O B × Bool) :=
  let r := env.stepFn s a
  if anyEnded r.2 then
    let r2 := env.resetFn r.1
    (r2.1,
     ({ obs := r2.2.1,
        rew := r.2.rew,
        terminated := r.2.terminated,
        truncated := r.2.truncated,
        info := aSet (aSet r2.2.2 "final_observation" (WVal.obsV r.2.obs))
                  "final_info" (WVal.infoV r.2.info) },
      true))
  else (r.1, (r.2, true))

/-! ## `step_wait` info merging (`vector.py` lines 255-321) -/

/-- The supervisor's merged info structure: the `infos` dictionary maps
each reported key `k` to an `N`-sized array (`vals k`) and each mask
key `"_k"` to an `N`-sized boolean mask (`masks k`); the two name
spaces are disjoint, so they are modelled as two maps.  Array slots of
workers that did not report the key keep their default (`none` /
`false`). -/
structure InfoArrays (V : Type) where
  vals : String → Option (List (Option V))
  masks : String → Option (List Bool)

/-- One iteration of the loop body of `_add_info` (vector.py
lines 304-312) for entry `(k, v)` of worker `i`'s info: fetch the
existing arrays for `k` (or initialize fresh default arrays when `k` is
not yet present), write `v` and `True` at index `i`, and store both
arrays back. -/
def infoStep (N : Nat) (acc : InfoArrays V) (k : String) (v : V) (i : Nat) :
    InfoArrays V :=
  let pr : List (Option V) × List Bool :=
    match acc.vals k with
    | none => (List.replicate N none, List.replicate N false)
    | some arr => (arr, (acc.masks k).getD (List.replicate N false))
  { vals := fun q => if q = k then some (pr.1.set i (some v)) else acc.vals q,
    masks := fun q => if q = k then some (pr.2.set i true) else acc.masks q }

/-- `_add_info(infos, info, env_num)`: iterate over `info`'s entries. -/
def addInfo (N : Nat) (acc : InfoArrays V) (info : List (String × V)) (i : Nat) :
    InfoArrays V :=
  info.foldl (fun a p => infoStep N a p.1 p.2 i) acc

/-- The empty `infos` dictionary `step_wait` starts from. -/
def emptyInfos (V : Type) : InfoArrays V :=
  { vals := fun _ => none, masks := fun _ => none }

/-- The info-merging loop of `step_wait` (vector.py lines 262-270):
`for i, conn in enumerate(self.parent_conns)` receives workers in index
order; for worker `i` the line `infos = self._add_info(infos, info, i)`
sits inside the loop over `self.agents` and therefore runs once per
agent (`nAgents` times) with the same arguments. -/
def stepWaitGo (N nAgents : Nat) :
    InfoArrays V → Nat → List (List (String × V)) → InfoArrays V
  | acc, _, [] => acc
  | acc, i, info :: rest =>
    stepWaitGo N nAgents
      ((List.range nAgents).foldl (fun a _ => addInfo N a info i) acc) (i + 1) rest

/-- The merged info structure `step_wait` returns, given the info
dictionaries of the `N` workers in worker order. -/
def stepWaitInfos (nAgents : Nat) (ws : List (List (String × V))) : InfoArrays V :=
  stepWaitGo ws.length nAgents (emptyInfos V) 0 ws

/-- The default-or-existing value array `_add_info` works on for key
`q` (`self._init_info_arrays` default when `q` is absent). -/
def arrOr (N : Nat) (acc : InfoArrays V) (q : String) : List (Option V) :=
  match acc.vals q with
  | none => List.replicate N none
  | some arr => arr

/-- The default-or-existing mask array `_add_info` works on for key
`q`. -/
def mskOr (N : Nat) (acc : InfoArrays V) (q : String) : List Bool :=
  match acc.vals q with
  | none => List.replicate N false
  | some _ => (acc.masks q).getD (List.replicate N false)

/-- What worker `j` reported for info key `q` (if anything). -/
def reportedVal (ws : List (List (String × V))) (q : String) (j : Nat) : Option V :=
  (ws.get? j).bind (fun info => aLookup info q)

/-- The value slot `j` of key `q`'s merged array after processing
workers `0 .. m-1`: the boxed report of worker `j` once processed, the
default `none` before. -/
def entryVal (ws : List (List (String × V))) (q : String) (m j : Nat) : Option V :=
  if j < m then reportedVal ws q j else none

/-- The mask slot `j` of key `q`'s merged mask array after processing
workers `0 .. m-1`: `true` exactly for processed workers that reported
`q`. -/
def entryMsk (ws : List (List (String × V))) (q : String) (m j : Nat) : Bool :=
  decide (j < m) && (reportedVal ws q j).isSome

/-- The merged-info invariant after processing workers `0 .. m-1`: a
key nobody among them reported is absent from both maps; a key somebody
reported has value and mask arrays of length `N = ws.length` whose slot
`j` holds worker `j`'s reported value (boxed) and its presence bit for
processed workers, and the defaults (`none` / `false`) for workers not
yet processed. -/
def InfosChar (ws : List (List (String × V))) (m : Nat) (acc : InfoArrays V) : Prop :=
  ∀ q : String,
    ((∀ j, j < m → reportedVal ws q j = none) →
      acc.vals q = none ∧ acc.masks q = none) ∧
    ((∃ j, j < m ∧ (reportedVal ws q j).isSome) →
      ∃ arr msk, acc.vals q = some arr ∧ acc.masks q = some msk ∧
        arr.length = ws.length ∧ msk.length = ws.length ∧
        ∀ j, j < ws.length →
          arr.get? j = some (entryVal ws q m j) ∧
          msk.get? j = some (entryMsk ws q m j))

/-! ## Training states and target networks (td3.py, sac.py, dqn.py) -/

/-- A trainable sub-state: live `params`, lagged `target_params`, and
an opaque optimizer state. -/
structure TrainStateE (OS : Type) where
  params : Params
  target_params : Params
  optState : OS

/-- `flax` TrainState.apply_gradients, modelled abstractly: the
optimizer consumes its state, the current params and the gradients and
produces the new optimizer state and the new params. -/
structure OptimizerE (OS : Type) where
  applyGradients : OS → Params → Params → OS × Params

/-- `jax.value_and_grad(loss_fn)` for a loss of one parameter set,
modelled abstractly as the loss value and its gradient. -/
structure LossGrad (B : Type) where
  loss : Params → B → ℚ
  grad : Params → B → Params

/-- `jax.value_and_grad` for a loss reading a second (frozen)
parameter set, as in the TD3/SAC policy losses that query the qvalue
network. -/
structure LossGrad2 (B : Type) where
  loss : Params → Params → B → ℚ
  grad : Params → Params → B → Params

/-- `jax.value_and_grad` for the SAC policy loss, which reads the
qvalue and alpha parameter sets. -/
structure LossGrad3 (B : Type) where
  loss : Params → Params → Params → B → ℚ
  grad : Params → Params → Params → B → Params

/-- `jax.value_and_grad` for the SAC temperature loss, which reads the
policy parameters and a PRNG key (for the log-prob sample). -/
structure LossGradA (B K : Type) where
  loss : Params → Params → K → B → ℚ
  grad : Params → Params → K → B → Params

/-- `init_params` (rl/modules/modules.py lines 106-126): the returned
variables come from `module.init(key)`; the `tabulate` flag only prints
a summary table and does not affect the returned value. -/
def initParamsE (moduleInit : K → Params) (key : K) (tabulate : Bool) : Params :=
  moduleInit key

/-- `TrainState.create` as used in the factories: live params from
`init_params(key, module, shapes, tabulate)` and target params from
`init_params(key, module, shapes, False)` — the same key and module. -/
def trainStateCreate (moduleInit : K → Params) (key : K) (tab : Bool) (os0 : OS) :
    TrainStateE OS :=
  { params := initParamsE moduleInit key tab,
    target_params := initParamsE moduleInit key false,
    optState := os0 }

/-- `TD3TrainState`: policy and qvalue sub-states. -/
structure TD3StateE (OS : Type) where
  policy : TrainStateE OS
  qvalue : TrainStateE OS

/-- `train_state_ddpg_factory` (td3.py lines 49-115):
`key1, key2 = jax.random.split(key)`; each sub-state is created with
live and target params initialized from the same key. -/
def td3Factory (split : K → K × K) (initPolicy initQvalue : K → Params)
    (osP osQ : OS) (key : K) (tab : Bool) : TD3StateE OS :=
  let ks := split key
  { policy := trainStateCreate initPolicy ks.1 tab osP,
    qvalue := trainStateCreate initQvalue ks.2 tab osQ }

/-- `update_qvalue_fn` (td3.py lines 180-195): one gradient step on the
qvalue live params; the target params are not touched here. -/
def td3UpdateQvalue (opt : OptimizerE OS) (lg : LossGrad B)
    (qs : TrainStateE OS) (batch : B) :
    TrainStateE OS × ℚ × List (String × ℚ) :=
  let grads := lg.grad qs.params batch
  let r := opt.applyGradients qs.optState qs.params grads
  ({ qs with optState := r.1, params := r.2 },
   lg.loss qs.params batch,
   [("loss_qvalue", lg.loss qs.params batch)])

/-- `update_policy_fn` (td3.py lines 197-230): one gradient step on the
policy live params, then Polyak updates of both the policy and the
qvalue target params with the post-gradient live params. -/
def td3UpdatePolicy (opt : OptimizerE OS) (lg2 : LossGrad2 B) (tau : ℚ)
    (ps qs : TrainStateE OS) (batch : B) :
    (TrainStateE OS × TrainStateE OS) × ℚ × List (String × ℚ) :=
  let grads := lg2.grad ps.params qs.params batch
  let r := opt.applyGradients ps.optState ps.params grads
  let ps1 : TrainStateE OS := { ps with optState := r.1, params := r.2 }
  let ps2 : TrainStateE OS :=
    { ps1 with target_params := incrementalUpdate tau ps1.params ps1.target_params }
  let qs2 : TrainStateE OS :=
    { qs with target_params := incrementalUpdate tau qs.params qs.target_params }
  ((ps2, qs2), lg2.loss ps.params qs.params batch,
   [("loss_policy", lg2.loss ps.params qs.params batch)])

/-- `update_step_fn` (td3.py lines 232-251): the qvalue update runs on
every call; the policy update (and with it every target update) runs
only when `step % policy_update_frequency == 0`; diagnostics are merged
and `total_loss` added.  Returns `(qvalue_state, policy_state, info)`. -/
def td3UpdateStep (optQ optP : OptimizerE OS) (lgQ : LossGrad B) (lgP : LossGrad2 B)
    (tau : ℚ) (freq step : Nat) (ps qs : TrainStateE OS) (batch : B) :
    TrainStateE OS × TrainStateE OS × List (String × ℚ) :=
  let rq := td3UpdateQvalue optQ lgQ qs batch
  if step % freq = 0 then
    let rp := td3UpdatePolicy optP lgP tau ps rq.1 batch
    (rp.1.2, rp.1.1, aSet (dunion rq.2.2 rp.2.2) "total_loss" (rq.2.1 + rp.2.1))
  else
    (rq.1, ps, aSet (dunion rq.2.2 []) "total_loss" (rq.2.1 + 0))

/-- The SAC temperature sub-state: `alpha_state` is created without
target params (sac.py lines 95-99). -/
structure AlphaStateE (OS : Type) where
  params : Params
  optState : OS

/-- `SACTrainState`: policy, qvalue, and alpha sub-states. -/
structure SACStateE (OS : Type) where
  policy : TrainStateE OS
  qvalue : TrainStateE OS
  alpha : AlphaStateE OS

/-- `train_state_sac_factory` (sac.py lines 49-105):
`key1, key2, key3 = jax.random.split(key, 3)`; policy and qvalue get
live and target params from the same key; alpha has no target. -/
def sacFactory (split3 : K → K × K × K) (initPolicy initQvalue initAlpha : K → Params)
    (osP osQ osA : OS) (key : K) (tab : Bool) : SACStateE OS :=
  let ks := split3 key
  { policy := trainStateCreate initPolicy ks.1 tab osP,
    qvalue := trainStateCreate initQvalue ks.2.1 tab osQ,
    alpha := { params := initParamsE initAlpha ks.2.2 tab, optState := osA } }

/-- `update_qvalue_fn` (sac.py lines 154-171): one gradient step on the
qvalue live params; no target update here. -/
def sacUpdateQvalue (opt : OptimizerE OS) (lg : LossGrad B)
    (qs : TrainStateE OS) (batch : B) :
    TrainStateE OS × ℚ × List (String × ℚ) :=
  let grads := lg.grad qs.params batch
  let r := opt.applyGradients qs.optState qs.params grads
  ({ qs with optState := r.1, params := r.2 },
   lg.loss qs.params batch,
   [("loss_qvalue", lg.loss qs.params batch)])

/-- `update_policy_fn` (sac.py lines 173-214): one gradient step on the
policy live params (the loss reads the qvalue and alpha params), then
Polyak updates of both the policy and the qvalue target params. -/
def sacUpdatePolicy (opt : OptimizerE OS) (lg3 : LossGrad3 B) (tau : ℚ)
    (ps qs : TrainStateE OS) (alphaParams : Params) (batch : B) :
    (TrainStateE OS × TrainStateE OS) × ℚ × List (String × ℚ) :=
  let grads := lg3.grad ps.params qs.params alphaParams batch
  let r := opt.applyGradients ps.optState ps.params grads
  let ps1 : TrainStateE OS := { ps with optState := r.1, params := r.2 }
  let ps2 : TrainStateE OS :=
    { ps1 with target_params := incrementalUpdate tau ps1.params ps1.target_params }
  let qs2 : TrainStateE OS :=
    { qs with target_params := incrementalUpdate tau qs.params qs.target_params }
  ((ps2, qs2), lg3.loss ps.params qs.params alphaParams batch,
   [("loss_policy", lg3.loss ps.params qs.params alphaParams batch)])

/-- `update_alpha_fn` (sac.py lines 216-236): one gradient step on the
temperature params; the loss samples log-probs from the (already
updated) policy with the call's key. -/
def sacUpdateAlpha (opt : OptimizerE OS) (lgA : LossGradA B K) (key : K)
    (policyParams : Params) (as0 : AlphaStateE OS) (batch : B) :
    AlphaStateE OS × ℚ × List (String × ℚ) :=
  let grads := lgA.grad as0.params policyParams key batch
  let r := opt.applyGradients as0.optState as0.params grads
  ({ params := r.2, optState := r.1 },
   lgA.loss as0.params policyParams key batch,
   [("loss_alpha", lgA.loss as0.params policyParams key batch)])

/-- `update_step_fn` (sac.py lines 238-257): qvalue gradient step, then
policy gradient step with Polyak updates of both targets, then alpha
gradient step (using the updated policy params); diagnostics merged and
`total_loss` added. -/
def sacUpdateStep (optQ optP optA : OptimizerE OS) (lgQ : LossGrad B)
    (lgP : LossGrad3 B) (lgA : LossGradA B K) (tau : ℚ) (key : K)
    (st : SACStateE OS) (batch : B) :
    SACStateE OS × List (String × ℚ) :=
  let rq := sacUpdateQvalue optQ lgQ st.qvalue batch
  let rp := sacUpdatePolicy optP lgP tau st.policy rq.1 st.alpha.params batch
  let ra := sacUpdateAlpha optA lgA key rp.1.1.params st.alpha batch
  ({ policy := rp.1.1, qvalue := rp.1.2, alpha := ra.1 },
   aSet (dunion (dunion rq.2.2 rp.2.2) ra.2.2) "total_loss"
     (rq.2.1 + rp.2.1 + ra.2.1))

/-! ## Action-selection entry points (dqn.py, td3.py, sac.py) -/

/-- `jnp.argmax` over a vector of qvalues: index of the first maximum. -/
def idxOfMaxGo : Nat → Nat → ℚ → List ℚ → Nat
  | _, bi, _, [] => bi
  | i, bi, bv, q :: rest =>
    if bv < q then idxOfMaxGo (i + 1) i q rest else idxOfMaxGo (i + 1) bi bv rest

/-- `jnp.argmax` (first index of the maximum; `0` on the empty list). -/
def idxOfMax : List ℚ → Nat
  | [] => 0
  | q :: rest => idxOfMaxGo 1 0 q rest

/-- The collaborators of DQN's `explore_factory` (dqn.py lines 57-74):
the q-network apply function and the PRNG primitives it calls. -/
structure DQNModel (O K : Type) where
  qvalues : Params → O → List ℚ
  unif : K → ℚ
  randint : K → Nat
  split : K → K × K

/-- DQN `explore_factory`'s `fn` (dqn.py lines 58-72): greedy action by
`argmax`; `key1, key2 = split(key)`; `eps = uniform(key1)`;
random action from `key2`; choose the random action when
`eps <= exploration`, else the greedy one.  Returns the action and the
zero placeholder log-prob. -/
def dqnExploreFn (m : DQNModel O K) (params : Params) (key : K) (obs : O)
    (exploration : ℚ) : Nat × ℚ :=
  let greedy := idxOfMax (m.qvalues params obs)
  let ks := m.split key
  let eps := m.unif ks.1
  let rand := m.randint ks.2
  ((if eps ≤ exploration then rand else greedy), 0)

/-- `DQN.select_action` (dqn.py lines 158-168): calls the explore
function with `exploration=NO_EXPLORATION` (that is, `0.0`). -/
def dqnSelectAction (m : DQNModel O K) (params : Params) (key : K) (obs : O) :
    Nat × ℚ :=
  dqnExploreFn m params key obs 0

/-- `DQN.explore` (dqn.py lines 170-183): calls the explore function
with the configured `algo_params.exploration`. -/
def dqnExplore (m : DQNModel O K) (params : Params) (key : K) (obs : O)
    (exploration : ℚ) : Nat × ℚ :=
  dqnExploreFn m params key obs exploration

/-- `min hi (max lo q)`, the scalar `jnp.clip(q, lo, hi)`. -/
def clipQ (lo hi q : ℚ) : ℚ := min hi (max lo q)

/-- Modelled from the spec: the sampling rule of
`PolicyNormalExternalStd` (rl/modules/policy.py, which is not included
under src; td3.py's explore_factory samples from it with the externally
supplied noise scale).  Per the spec's exploration-policy description
(greedy/deterministic at zero noise, noise applied during training),
sampling yields the deterministic policy mean shifted by the
noise-scaled standard-normal draw of the key. -/
def td3Sample (mean : Params → O → ℚ) (gauss : K → ℚ) (params : Params)
    (obs : O) (noise : ℚ) (key : K) : ℚ :=
  mean params obs + noise * gauss key

/-- TD3 `explore_factory`'s `fn` (td3.py lines 121-135): sample from the
policy distribution at the given noise scale, then clip to `[-1, 1]`. -/
def td3ExploreFn (mean : Params → O → ℚ) (gauss : K → ℚ) (ps : TrainStateE OS)
    (key : K) (obs : O) (noise : ℚ) : ℚ :=
  clipQ (-1) 1 (td3Sample mean gauss ps.params obs noise key)

/-- `TD3.select_action` (td3.py lines 284-292): calls the explore
function with noise `0.0`. -/
def td3SelectAction (mean : Params → O → ℚ) (gauss : K → ℚ) (ps : TrainStateE OS)
    (key : K) (obs : O) : ℚ :=
  td3ExploreFn mean gauss ps key obs 0

/-- `TD3.explore` (td3.py lines 294-312): calls the explore function
with the configured `action_noise`; before `start_step` the action is
overridden by a uniform draw from a fresh key. -/
def td3Explore (mean : Params → O → ℚ) (gauss : K → ℚ) (ps : TrainStateE OS)
    (actionNoise : ℚ) (step startStep : Nat) (unifAct : K → ℚ)
    (key ukey : K) (obs : O) : ℚ :=
  if step < startStep then unifAct ukey
  else td3ExploreFn mean gauss ps key obs actionNoise

/-- SAC `explore_factory`'s `fn` (sac.py lines 108-117): sample from the
stochastic tanh-normal policy with the key, then clip to `[-1, 1]`
(the sampler is the opaque distribution collaborator). -/
def sacExploreFn (sample : Params → O → K → ℚ) (ps : TrainStateE OS)
    (key : K) (obs : O) : ℚ :=
  clipQ (-1) 1 (sample ps.params obs key)

/-- `SAC.explore` (sac.py lines 296-305): sample with the key; before
`start_step` the action is overridden by a uniform draw. -/
def sacExplore (sample : Params → O → K → ℚ) (ps : TrainStateE OS)
    (step startStep : Nat) (unifAct : K → ℚ) (key ukey : K) (obs : O) : ℚ :=
  if step < startStep then unifAct ukey
  else sacExploreFn sample ps key obs

/-- `SAC.select_action` (sac.py lines 293-294): literally
`return self.explore(observation)`. -/
def sacSelectAction (sample : Params → O → K → ℚ) (ps : TrainStateE OS)
    (step startStep : Nat) (unifAct : K → ℚ) (key ukey : K) (obs : O) : ℚ :=
  sacExplore sample ps step startStep unifAct key ukey obs

/-! ## Concrete instantiations used to evaluate the model -/

/-- A concrete key-splitting function on natural-number keys (the two
children of node `k` in an infinite binary tree, so repeated splits
never collide). -/
def natSplit (k : Nat) : Nat × Nat := (2 * k + 1, 2 * k + 2)

/-- A concrete update module that increments its rational state and
reports no diagnostics. -/
def c4mod1 : UpdateModuleE Nat Unit ℚ Nat :=
  { update_fn := fun s _ _ => some (s + 1, []), state := 0 }

/-- A concrete update module whose update function always fails. -/
def c4mod2 : UpdateModuleE Nat Unit ℚ Nat :=
  { update_fn := fun _ _ _ => none, state := 0 }

/-- A concrete single-agent counter environment: stepping increments
the counter, terminates when the counter becomes even, and reports a
fixed info entry; resetting returns counter `0` and observation `100`. -/
def cEnv : PEnv Nat Nat Nat Nat :=
  { stepFn := fun s _ =>
      (s + 1,
       { obs := s + 1, rew := [("p0", 1)],
         terminated := [("p0", (s + 1) % 2 == 0)],
         truncated := [("p0", false)],
         info := [("k", WVal.base 7)] }),
    resetFn := fun _ => (0, (100, [("r", WVal.base 0)])) }

/-- A concrete update module that adds the key to its state and reports
one diagnostic. -/
def c7m1 : UpdateModuleE Nat Unit ℚ Nat :=
  { update_fn := fun s k _ => some (s + k, [("a", 1)]), state := 0 }

/-- A concrete update module that doubles its state and reports two
diagnostics, one key colliding with the first module's. -/
def c7m2 : UpdateModuleE Nat Unit ℚ Nat :=
  { update_fn := fun s _ _ => some (s * 2, [("a", 2), ("b", 3)]), state := 5 }

/-- A concrete experience transform: add the key to the experience. -/
def cTrans : ExperienceTransformE Unit Nat Nat :=
  { process_experience_fn := fun _ k e => e + k, state := () }

/-- A concrete `jax.random.split(key, n)` model: `n` fresh keys derived
from `key` by offsetting (all distinct). -/
def cSplitN (k n : Nat) : List Nat := (List.range n).map (fun t => k + t + 1)

/-- A concrete optimizer: one unit gradient-descent step. -/
def cOpt : OptimizerE Unit :=
  { applyGradients := fun _ p g => ((), List.zipWith (fun a b => a - b) p g) }

/-- A concrete loss/gradient pair with constant gradient `[1]`. -/
def cLgQ : LossGrad Unit := { loss := fun _ _ => 0, grad := fun _ _ => [1] }

/-- A concrete two-parameter loss/gradient pair. -/
def cLgP : LossGrad2 Unit :=
  { loss := fun _ _ _ => 0, grad := fun _ _ _ => [1] }

/-- A concrete three-parameter loss/gradient pair. -/
def cLgP3 : LossGrad3 Unit :=
  { loss := fun _ _ _ _ => 0, grad := fun _ _ _ _ => [1] }

/-- A concrete temperature loss/gradient pair. -/
def cLgA : LossGradA Unit Nat :=
  { loss := fun _ _ _ _ => 0, grad := fun _ _ _ _ => [1] }

/-- A concrete sub-state with one zero leaf, zero target, no optimizer
state. -/
def cQs : TrainStateE Unit := { params := [0], target_params := [0], optState := () }

/-- A second concrete sub-state, identical to `cQs`. -/
def cPs : TrainStateE Unit := { params := [0], target_params := [0], optState := () }

/-- A concrete SAC training state built from the concrete sub-states. -/
def cSacSt : SACStateE Unit :=
  { policy := cPs, qvalue := cQs, alpha := { params := [0], optState := () } }

/-- A concrete stochastic policy sampler whose draw depends on the key
(key `0` samples `0`, any other key samples `1/2`). -/
def cSample : Params → Unit → Nat → ℚ :=
  fun _ _ k => if k = 0 then 0 else 1 / 2

/-- A concrete DQN collaborator bundle: three actions with qvalues
`[1, 3, 2]`, a uniform draw of `1/2`, random action `0`. -/
def cDqn : DQNModel Unit Nat :=
  { qvalues := fun _ _ => [1, 3, 2],
    unif := fun _ => 1 / 2,
    randint := fun _ => 0,
    split := natSplit }

/-! ## Theorems -/

/-- Helper: lookup after an in-place dictionary write. -/
theorem aLookup_aSet (d : List (String × α)) (k : String) (v : α) (q : String) :
    aLookup (aSet d k v) q = if q = k then some v else aLookup d q := by
  induction d with
  | nil =>
    by_cases h : k = q
    · subst h; simp [aSet, aLookup]
    · simp [aSet, aLookup, h, Ne.symm h]
  | cons p rest ih =>
    by_cases h1 : p.1 = k
    · by_cases h2 : k = q
      · subst h2; simp [aSet, aLookup, h1]
      · simp [aSet, aLookup, h1, h2, Ne.symm h2]
    · by_cases h2 : p.1 = q
      · have hqk : ¬ q = k := fun hh => h1 (h2.trans hh)
        simp [aSet, aLookup, h1, h2, hqk]
      · simp [aSet, aLookup, h1, h2, ih]

/-- Helper: lookup misses when the key is absent. -/
theorem aLookup_eq_none (l : List (String × α)) (q : String)
    (h : q ∉ l.map Prod.fst) : aLookup l q = none := by
  induction l with
  | nil => rfl
  | cons p rest ih =>
    simp only [List.map_cons, List.mem_cons] at h
    push_neg at h
    have hne : ¬ p.1 = q := fun hh => h.1 hh.symm
    simp [aLookup, hne, ih h.2]

/-- Helper: lookup in a dictionary union `d1 |= d2` prefers `d2`'s
value (the keys of a Python dictionary `d2` are distinct). -/
theorem dunion_lookup (a b : List (String × α)) (q : String)
    (hnd : (b.map Prod.fst).Nodup) :
    aLookup (dunion a b) q = oElse (aLookup b q) (aLookup a q) := by
  induction b generalizing a with
  | nil => simp [dunion, aLookup, oElse]
  | cons p rest ih =>
    simp only [List.map_cons, List.nodup_cons] at hnd
    have hstep : dunion a (p :: rest) = dunion (aSet a p.1 p.2) rest := rfl
    rw [hstep, ih _ hnd.2]
    by_cases h : p.1 = q
    · have hq : aLookup rest q = none := aLookup_eq_none rest q (h ▸ hnd.1)
      simp [aLookup, h, hq, aLookup_aSet, oElse]
    · simp [aLookup, h, aLookup_aSet, Ne.symm h]

/-- Helper: `oElse` is associative. -/
theorem oElse_assoc (a b c : Option α) :
    oElse (oElse a b) c = oElse a (oElse b c) := by
  cases a <;> rfl

/-- Helper: `none` is a right identity of `oElse`. -/
theorem oElse_none_right (a : Option α) : oElse a none = a := by
  cases a <;> rfl

/-- Helper: the caller-visible module list always keeps its length. -/
theorem updatePipelineGo_length (split : K → K × K) (batch : B)
    (mods : List (UpdateModuleE S B D K)) :
    ∀ (key : K) (acc : List (String × D)),
      (updatePipelineGo split batch mods key acc).1.length = mods.length := by
  induction mods with
  | nil => intro key acc; rfl
  | cons m rest ih =>
    intro key acc
    rcases hm : m.update_fn m.state ((split key).2) batch with _ | p
    · simp [updatePipelineGo, hm]
    · simp [updatePipelineGo, hm, ih]

/-- Helper: `update_pipeline` replaces module values and never mutates
one, so every caller-visible entry keeps its original update
function. -/
theorem updatePipelineGo_map_fn (split : K → K × K) (batch : B)
    (mods : List (UpdateModuleE S B D K)) :
    ∀ (key : K) (acc : List (String × D)),
      (updatePipelineGo split batch mods key acc).1.map (fun m => m.update_fn) =
        mods.map (fun m => m.update_fn) := by
  induction mods with
  | nil => intro key acc; rfl
  | cons m rest ih =>
    intro key acc
    rcases hm : m.update_fn m.state ((split key).2) batch with _ | p
    · simp [updatePipelineGo, hm]
    · simp [updatePipelineGo, hm, ih]

/-- Helper: when the pipeline fails, the caller-visible list keeps the
original modules exactly from the failing stage on, and holds the
updated modules before it. -/
theorem updatePipelineGo_fail (split : K → K × K) (batch : B)
    (mods : List (UpdateModuleE S B D K)) :
    ∀ (key : K) (acc : List (String × D)),
      (updatePipelineGo split batch mods key acc).2 = none →
      ∃ n mf, mods.get? n = some mf ∧
        mf.update_fn mf.state (subkeyAt split key n) batch = none ∧
        (updatePipelineGo split batch mods key acc).1.drop n = mods.drop n ∧
        ∀ j, j < n → ∃ mj stj dj, mods.get? j = some mj ∧
          mj.update_fn mj.state (subkeyAt split key j) batch = some (stj, dj) ∧
          (updatePipelineGo split batch mods key acc).1.get? j =
            some { mj with state := stj } := by
  induction mods with
  | nil => intro key acc h; simp [updatePipelineGo] at h
  | cons m rest ih =>
    intro key acc h
    rcases hm : m.update_fn m.state ((split key).2) batch with _ | p
    · refine ⟨0, m, rfl, by simpa [subkeyAt] using hm, by simp [updatePipelineGo, hm], ?_⟩
      intro j hj
      omega
    · have hr : (updatePipelineGo split batch rest ((split key).1) (dunion acc p.2)).2 = none := by
        simpa [updatePipelineGo, hm] using h
      obtain ⟨n, mf, h1, h2, h3, h4⟩ := ih ((split key).1) (dunion acc p.2) hr
      refine ⟨n + 1, mf, by simpa using h1, by simpa [subkeyAt] using h2,
        by simpa [updatePipelineGo, hm] using h3, ?_⟩
      intro j hj
      cases j with
      | zero =>
        exact ⟨m, p.1, p.2, rfl, by simpa [subkeyAt] using hm,
          by simp [updatePipelineGo, hm]⟩
      | succ j' =>
        obtain ⟨mj, stj, dj, g1, g2, g3⟩ := h4 j' (by omega)
        exact ⟨mj, stj, dj, by simpa using g1, by simpa [subkeyAt] using g2,
          by simpa [updatePipelineGo, hm] using g3⟩

/-- Helper: when the pipeline succeeds, caller-visible entry `i` is
module `i` with exactly its own update applied under the `i`-th split
sub-key. -/
theorem updatePipelineGo_success (split : K → K × K) (batch : B)
    (mods : List (UpdateModuleE S B D K)) :
    ∀ (key : K) (acc : List (String × D)),
      (updatePipelineGo split batch mods key acc).2 ≠ none →
      ∀ i mi, mods.get? i = some mi →
        ∃ st d, mi.update_fn mi.state (subkeyAt split key i) batch = some (st, d) ∧
          (updatePipelineGo split batch mods key acc).1.get? i =
            some { mi with state := st } := by
  induction mods with
  | nil => intro key acc _ i mi hmi; simp at hmi
  | cons m rest ih =>
    intro key acc h i mi hmi
    rcases hm : m.update_fn m.state ((split key).2) batch with _ | p
    · exact absurd (by simp [updatePipelineGo, hm]) h
    · cases i with
      | zero =>
        have e : m = mi := by simpa using hmi
        subst e
        exact ⟨p.1, p.2, by simpa [subkeyAt] using hm, by simp [updatePipelineGo, hm]⟩
      | succ i' =>
        have h' : (updatePipelineGo split batch rest ((split key).1) (dunion acc p.2)).2 ≠ none := by
          simpa [updatePipelineGo, hm] using h
        obtain ⟨st, d, g1, g2⟩ := ih ((split key).1) (dunion acc p.2) h' i' mi (by simpa using hmi)
        exact ⟨st, d, by simpa [subkeyAt] using g1,
          by simpa [updatePipelineGo, hm] using g2⟩

/-- Helper: the diagnostics dictionary the pipeline returns looks up to
the later-wins merge of the stages' reports over the initial
accumulator. -/
theorem updatePipelineGo_info (split : K → K × K) (batch : B)
    (mods : List (UpdateModuleE S B D K)) :
    ∀ (key : K) (acc info : List (String × D)),
      (updatePipelineGo split batch mods key acc).2 = some info →
      (∀ i p, stageOut split key batch mods i = some p → (p.2.map Prod.fst).Nodup) →
      ∀ q, aLookup info q =
        oElse (lastReportedGo split batch mods key q) (aLookup acc q) := by
  induction mods with
  | nil =>
    intro key acc info h _ q
    have e : acc = info := by simpa [updatePipelineGo] using h
    subst e
    simp [lastReportedGo, oElse]
  | cons m rest ih =>
    intro key acc info h hnd q
    rcases hm : m.update_fn m.state ((split key).2) batch with _ | p
    · simp [updatePipelineGo, hm] at h
    · have h' : (updatePipelineGo split batch rest ((split key).1) (dunion acc p.2)).2 = some info := by
        simpa [updatePipelineGo, hm] using h
      have hnd' : ∀ i pp, stageOut split ((split key).1) batch rest i = some pp →
          (pp.2.map Prod.fst).Nodup := by
        intro i pp hp
        exact hnd (i + 1) pp (by simpa [stageOut, subkeyAt] using hp)
      have hp0 : (p.2.map Prod.fst).Nodup :=
        hnd 0 p (by simp [stageOut, subkeyAt, hm])
      have hrec := ih ((split key).1) (dunion acc p.2) info h' hnd' q
      rw [hrec, dunion_lookup _ _ _ hp0]
      simp only [lastReportedGo, hm, Option.some_bind]
      rw [← oElse_assoc]

/-- C4 counterexample: a two-stage pipeline whose second stage fails;
`update_pipeline` reports the failure, yet the caller-visible module
list is not the list the caller passed in — the first stage's entry has
already been replaced in place (its state moved from 0 to 1). -/
theorem C4_counterexample :
    (updatePipeline natSplit [c4mod1, c4mod2] 0 ()).2 = none ∧
    ((updatePipeline natSplit [c4mod1, c4mod2] 0 ()).1).map (fun m => m.state) ≠
      [c4mod1, c4mod2].map (fun m => m.state) := by
  constructor
  · rfl
  · decide

/-- C4 (amended): `update_pipeline` builds each new module by replacing
the state field — module values are never mutated, so every
caller-visible entry keeps its original update function, and any module
value the caller held separately is untouched — but it assigns the
updated modules into the caller's own list in place, so when stage `n`
fails the caller-visible list keeps the original modules only from
position `n` on, while every position before `n` already holds the
updated module. -/
theorem C4_update_pipeline_inplace (S B D K : Type) (split : K → K × K)
    (mods : List (UpdateModuleE S B D K)) (key : K) (batch : B)
    (h : (updatePipeline split mods key batch).2 = none) :
    ((updatePipeline split mods key batch).1.map (fun m => m.update_fn) =
      mods.map (fun m => m.update_fn)) ∧
    ∃ n mf, mods.get? n = some mf ∧
      mf.update_fn mf.state (subkeyAt split key n) batch = none ∧
      (updatePipeline split mods key batch).1.drop n = mods.drop n ∧
      ∀ j, j < n → ∃ mj stj dj, mods.get? j = some mj ∧
        mj.update_fn mj.state (subkeyAt split key j) batch = some (stj, dj) ∧
        (updatePipeline split mods key batch).1.get? j = some { mj with state := stj } :=
  ⟨updatePipelineGo_map_fn split batch mods key [],
   updatePipelineGo_fail split batch mods key [] h⟩

/-- C4 witness: the amended statement evaluated on the concrete failing
two-stage pipeline. -/
theorem C4_update_pipeline_inplace_witness :
    ((updatePipeline natSplit [c4mod1, c4mod2] 0 ()).1.map (fun m => m.update_fn) =
      [c4mod1, c4mod2].map (fun m => m.update_fn)) ∧
    ∃ n mf, [c4mod1, c4mod2].get? n = some mf ∧
      mf.update_fn mf.state (subkeyAt natSplit 0 n) () = none ∧
      (updatePipeline natSplit [c4mod1, c4mod2] 0 ()).1.drop n = [c4mod1, c4mod2].drop n ∧
      ∀ j, j < n → ∃ mj stj dj, [c4mod1, c4mod2].get? j = some mj ∧
        mj.update_fn mj.state (subkeyAt natSplit 0 j) () = some (stj, dj) ∧
        (updatePipeline natSplit [c4mod1, c4mod2] 0 ()).1.get? j =
          some { mj with state := stj } :=
  C4_update_pipeline_inplace Nat Unit ℚ Nat natSplit [c4mod1, c4mod2] 0 () rfl

/-- C7: when every stage succeeds, `update_pipeline` applies the modules
sequentially in list order — caller-visible entry `i` is module `i`
with exactly its own update applied, consuming the `i`-th independently
split sub-key of the input seed — and the returned diagnostics
dictionary is the merge of all stages' diagnostics in which a later
stage's value wins on key collision. -/
theorem C7_update_pipeline_order_seed_merge (S B D K : Type) (split : K → K × K)
    (mods : List (UpdateModuleE S B D K)) (key : K) (batch : B)
    (info : List (String × D))
    (hs : (updatePipeline split mods key batch).2 = some info)
    (hnd : ∀ i p, stageOut split key batch mods i = some p → (p.2.map Prod.fst).Nodup) :
    (∀ i mi, mods.get? i = some mi →
      ∃ st d, mi.update_fn mi.state (subkeyAt split key i) batch = some (st, d) ∧
        (updatePipeline split mods key batch).1.get? i = some { mi with state := st }) ∧
    (∀ q, aLookup info q = lastReportedGo split batch mods key q) := by
  constructor
  · exact updatePipelineGo_success split batch mods key []
      (by simp [updatePipeline] at hs ⊢; simp [hs])
  · intro q
    have h2 := updatePipelineGo_info split batch mods key [] info hs hnd q
    rw [show aLookup ([] : List (String × D)) q = none from rfl, oElse_none_right] at h2
    exact h2

/-- C7 witness: the concrete two-stage pipeline (both stages succeed;
their diagnostics collide on key `a`). -/
theorem C7_update_pipeline_order_seed_merge_witness :
    (∀ i mi, [c7m1, c7m2].get? i = some mi →
      ∃ st d, mi.update_fn mi.state (subkeyAt natSplit 0 i) () = some (st, d) ∧
        (updatePipeline natSplit [c7m1, c7m2] 0 ()).1.get? i = some { mi with state := st }) ∧
    (∀ q, aLookup [("a", (2 : ℚ)), ("b", 3)] q = lastReportedGo natSplit () [c7m1, c7m2] 0 q) := by
  refine C7_update_pipeline_order_seed_merge Nat Unit ℚ Nat natSplit [c7m1, c7m2] 0 ()
    [("a", (2 : ℚ)), ("b", 3)] (by rfl) ?_
  intro i p hp
  match i with
  | 0 =>
    have e : p = ((2 : Nat), [("a", (1 : ℚ))]) := by
      simpa [stageOut, subkeyAt, c7m1] using hp.symm
    subst e
    simp
  | 1 =>
    have e : p = ((5 * 2 : Nat), [("a", (2 : ℚ)), ("b", 3)]) := by
      simpa [stageOut, subkeyAt, c7m2] using hp.symm
    subst e
    simp
  | (n + 2) =>
    simp [stageOut] at hp

/-- C5: the worker's `step` command handler.  When any agent terminated
or truncated, the environment is reset before replying (the returned
environment state is the post-reset state), the reply's primary
observation is the post-reset observation, the pre-reset observation
and info are stored under the `final_observation` and `final_info` keys
of the returned info, and rewards/termination flags pass through from
the step; when no agent ended, the reply is the step output — its
observation and info unchanged — with the post-step environment
state. -/
theorem C5_worker_autoreset (S O B A : Type) (env : PEnv S O B A) (s : S) (a : A)
    (s1 : S) (out : StepOut O B) (h : env.stepFn s a = (s1, out)) :
    (anyEnded out = true → ∃ s2 obs2 info2,
      env.resetFn s1 = (s2, (obs2, info2)) ∧
      workerStep env s a =
        (s2, ({ obs := obs2, rew := out.rew, terminated := out.terminated,
                truncated := out.truncated,
                info := aSet (aSet info2 "final_observation" (WVal.obsV out.obs))
                  "final_info" (WVal.infoV out.info) }, true)) ∧
      aLookup (workerStep env s a).2.1.info "final_observation" =
        some (WVal.obsV out.obs) ∧
      aLookup (workerStep env s a).2.1.info "final_info" =
        some (WVal.infoV out.info) ∧
      (workerStep env s a).2.1.obs = obs2 ∧
      (workerStep env s a).1 = s2) ∧
    (anyEnded out = false → workerStep env s a = (s1, (out, true))) := by
  constructor
  · intro hend
    refine ⟨(env.resetFn s1).1, (env.resetFn s1).2.1, (env.resetFn s1).2.2,
      rfl, ?_, ?_, ?_, ?_, ?_⟩
    · simp [workerStep, h, hend]
    · simp [workerStep, h, hend, aLookup_aSet]
    · simp [workerStep, h, hend, aLookup_aSet]
    · simp [workerStep, h, hend]
    · simp [workerStep, h, hend]
  · intro hend
    simp [workerStep, h, hend]

/-- C5 witness: the concrete counter environment, once at a terminating
step (counter 1 → 2, episode ends, auto-reset) and once at a
non-terminating step (counter 0 → 1, reply passes through). -/
theorem C5_worker_autoreset_witness :
    aLookup (workerStep cEnv 1 0).2.1.info "final_observation" =
      some (WVal.obsV 2) ∧
    aLookup (workerStep cEnv 1 0).2.1.info "final_info" =
      some (WVal.infoV [("k", WVal.base 7)]) ∧
    (workerStep cEnv 1 0).2.1.obs = 100 ∧
    (workerStep cEnv 1 0).1 = 0 ∧
    workerStep cEnv 0 0 =
      (1, ({ obs := 1, rew := [("p0", 1)], terminated := [("p0", false)],
             truncated := [("p0", false)],
             info := [("k", WVal.base 7)] }, true)) := by
  obtain ⟨h1, -⟩ := C5_worker_autoreset Nat Nat Nat Nat cEnv 1 0 2
    { obs := 2, rew := [("p0", 1)], terminated := [("p0", true)],
      truncated := [("p0", false)], info := [("k", WVal.base 7)] } rfl
  obtain ⟨s2, obs2, info2, he, hw, hfo, hfi, hobs, hst⟩ := h1 rfl
  have e2 : obs2 = 100 := by
    have := congrArg (fun p => p.2.1) he
    simpa [cEnv] using this.symm
  have e1 : s2 = 0 := by
    have := congrArg (fun p => p.1) he
    simpa [cEnv] using this.symm
  obtain ⟨-, h2⟩ := C5_worker_autoreset Nat Nat Nat Nat cEnv 0 0 1
    { obs := 1, rew := [("p0", 1)], terminated := [("p0", false)],
      truncated := [("p0", false)], info := [("k", WVal.base 7)] } rfl
  exact ⟨hfo, hfi, e2 ▸ hobs, e1 ▸ hst, h2 rfl⟩

/-- Helper: reading the slot just written. -/
theorem listGetSetSame : ∀ (l : List β) (i : Nat) (b : β), i < l.length →
    (l.set i b).get? i = some b
  | [], i, _, h => absurd h (by simp)
  | _ :: _, 0, _, _ => rfl
  | _ :: t, (i + 1), b, h => listGetSetSame t i b (by simpa using h)

/-- Helper: reading another slot after a write. -/
theorem listGetSetOther : ∀ (l : List β) (i j : Nat) (b : β), i ≠ j →
    (l.set i b).get? j = l.get? j
  | [], _, _, _, _ => rfl
  | _ :: _, 0, 0, _, h => absurd rfl h
  | _ :: _, 0, _ + 1, _, _ => rfl
  | _ :: _, _ + 1, 0, _, _ => rfl
  | _ :: t, (i + 1), (j + 1), b, h => listGetSetOther t i j b (fun e => h (by omega))

/-- Helper: the slots of a replicated list. -/
theorem listGetReplicate (b : β) : ∀ (n j : Nat),
    (List.replicate n b).get? j = if j < n then some b else none
  | 0, j => by simp
  | n + 1, 0 => by simp
  | n + 1, j + 1 => by
    simpa [List.replicate, Nat.succ_lt_succ_iff] using listGetReplicate b n j

/-- Helper: slots after one write, as a table. -/
theorem setEntries (arr : List β) (N : Nat) (f : Nat → β) (hlen : arr.length = N)
    (hf : ∀ j, j < N → arr.get? j = some (f j)) (i : Nat) (hi : i < N) (x : β) :
    ∀ j, j < N → (arr.set i x).get? j = some (if j = i then x else f j) := by
  intro j hj
  by_cases h : j = i
  · subst h
    rw [listGetSetSame _ _ _ (by omega)]
    simp
  · rw [listGetSetOther _ _ _ _ (fun e => h e.symm), hf j hj]
    simp [h]

/-- Helper: workers beyond the pool report nothing. -/
theorem reportedVal_none_of_ge (ws : List (List (String × V))) (q : String)
    (j : Nat) (h : ws.length ≤ j) : reportedVal ws q j = none := by
  unfold reportedVal
  rw [List.get?_eq_none.mpr h]
  rfl

/-- Helper: the next worker's slot table, when it reported `q`. -/
theorem entryVal_succ (ws : List (List (String × V))) (q : String) (m j : Nat) :
    entryVal ws q (m + 1) j =
      if j = m then reportedVal ws q m else entryVal ws q m j := by
  by_cases h : j = m
  · subst h; simp [entryVal]
  · by_cases h2 : j < m <;> simp [entryVal, h, h2] <;> omega

/-- Helper: the next worker's mask table. -/
theorem entryMsk_succ (ws : List (List (String × V))) (q : String) (m j : Nat) :
    entryMsk ws q (m + 1) j =
      if j = m then (reportedVal ws q j).isSome else entryMsk ws q m j := by
  by_cases h : j = m
  · subst h; simp [entryMsk]
  · by_cases h2 : j < m <;> simp [entryMsk, h, h2] <;> omega

/-- Helper: the slot tables do not move for a key the next worker did
not report. -/
theorem entry_succ_unreported (ws : List (List (String × V))) (q : String) (m : Nat)
    (h : reportedVal ws q m = none) (j : Nat) :
    entryVal ws q (m + 1) j = entryVal ws q m j ∧
    entryMsk ws q (m + 1) j = entryMsk ws q m j := by
  constructor
  · rw [entryVal_succ]
    by_cases hj : j = m
    · subst hj; simp [entryVal, h]
    · simp [hj]
  · rw [entryMsk_succ]
    by_cases hj : j = m
    · subst hj; simp [entryMsk, h]
    · simp [hj]

/-- Helper: the arrays `infoStep` writes for its own key. -/
theorem infoStep_self (N : Nat) (acc : InfoArrays V) (k : String) (v : V) (i : Nat) :
    (infoStep N acc k v i).vals k = some ((arrOr N acc k).set i (some v)) ∧
    (infoStep N acc k v i).masks k = some ((mskOr N acc k).set i true) := by
  cases h : acc.vals k <;> constructor <;> simp [infoStep, arrOr, mskOr, h]

/-- Helper: `infoStep` leaves other keys alone. -/
theorem infoStep_other (N : Nat) (acc : InfoArrays V) (k : String) (v : V) (i : Nat)
    (q : String) (h : q ≠ k) :
    (infoStep N acc k v i).vals q = acc.vals q ∧
    (infoStep N acc k v i).masks q = acc.masks q := by
  constructor <;> simp [infoStep, h]

/-- Helper: the pointwise effect of one `_add_info` call: keys the
worker did not report keep their maps; a reported key gets its
(existing-or-default) arrays with the worker's slot written. -/
theorem addInfo_lookup (N i : Nat) (info : List (String × V)) :
    (info.map Prod.fst).Nodup →
    ∀ (acc : InfoArrays V) (q : String),
      (aLookup info q = none →
        (addInfo N acc info i).vals q = acc.vals q ∧
        (addInfo N acc info i).masks q = acc.masks q) ∧
      (∀ v, aLookup info q = some v →
        (addInfo N acc info i).vals q = some ((arrOr N acc q).set i (some v)) ∧
        (addInfo N acc info i).masks q = some ((mskOr N acc q).set i true)) := by
  induction info with
  | nil =>
    intro _ acc q
    exact ⟨fun _ => ⟨rfl, rfl⟩, fun v hv => by simp [aLookup] at hv⟩
  | cons p rest ih =>
    intro hnd acc q
    simp only [List.map_cons, List.nodup_cons] at hnd
    have hstep : addInfo N acc (p :: rest) i =
        addInfo N (infoStep N acc p.1 p.2 i) rest i := rfl
    by_cases hpq : p.1 = q
    · subst hpq
      have hrest : aLookup rest p.1 = none := aLookup_eq_none rest p.1 hnd.1
      have hmain := (ih hnd.2 (infoStep N acc p.1 p.2 i) p.1).1 hrest
      constructor
      · intro hnone
        simp [aLookup] at hnone
      · intro v hv
        have hv2 : p.2 = v := by simpa [aLookup] using hv
        subst hv2
        rw [hstep]
        exact ⟨hmain.1.trans (infoStep_self N acc p.1 p.2 i).1,
          hmain.2.trans (infoStep_self N acc p.1 p.2 i).2⟩
    · have hne : q ≠ p.1 := fun e => hpq e.symm
      have hio := infoStep_other N acc p.1 p.2 i q hne
      have harr : arrOr N (infoStep N acc p.1 p.2 i) q = arrOr N acc q := by
        simp [arrOr, hio.1]
      have hmsk : mskOr N (infoStep N acc p.1 p.2 i) q = mskOr N acc q := by
        simp [mskOr, hio.1, hio.2]
      have hLk : aLookup (p :: rest) q = aLookup rest q := by simp [aLookup, hpq]
      rw [hstep]
      constructor
      · intro hnone
        rw [hLk] at hnone
        have hrec := (ih hnd.2 (infoStep N acc p.1 p.2 i) q).1 hnone
        exact ⟨hrec.1.trans hio.1, hrec.2.trans hio.2⟩
      · intro v hv
        rw [hLk] at hv
        have hrec := (ih hnd.2 (infoStep N acc p.1 p.2 i) q).2 v hv
        rw [hrec.1, hrec.2, harr, hmsk]
        exact ⟨rfl, rfl⟩

/-- Helper: one `_add_info` call for worker `m` advances the merged-info
invariant from `m` to `m + 1`, and preserves it once advanced (the
source calls `_add_info` once per agent with the same arguments). -/
theorem infosChar_step (ws : List (List (String × V))) (m : Nat)
    (info : List (String × V)) (hm : ws.get? m = some info)
    (hnd : (info.map Prod.fst).Nodup) (acc : InfoArrays V)
    (hc : InfosChar ws m acc ∨ InfosChar ws (m + 1) acc) :
    InfosChar ws (m + 1) (addInfo ws.length acc info m) := by
  have hmlen : m < ws.length := by
    by_contra hh
    rw [List.get?_eq_none.mpr (by omega)] at hm
    exact Option.noConfusion hm
  intro q
  rcases hq : aLookup info q with _ | v
  · -- worker m did not report q: maps unchanged at q
    have hkeep := (addInfo_lookup ws.length m info hnd acc q).1 hq
    have hrm : reportedVal ws q m = none := by
      unfold reportedVal
      rw [hm]
      exact hq
    constructor
    · intro hall
      rcases hc with hc | hc
      · obtain ⟨e1, e2⟩ := (hc q).1 (fun j hj => hall j (by omega))
        exact ⟨hkeep.1.trans e1, hkeep.2.trans e2⟩
      · obtain ⟨e1, e2⟩ := (hc q).1 hall
        exact ⟨hkeep.1.trans e1, hkeep.2.trans e2⟩
    · intro hex
      obtain ⟨j0, hj0, hs0⟩ := hex
      have hj0m : j0 < m := by
        rcases Nat.lt_succ_iff_lt_or_eq.mp hj0 with h | h
        · exact h
        · subst h; rw [hrm] at hs0; simp at hs0
      rcases hc with hc | hc
      · obtain ⟨arr, msk, e1, e2, e3, e4, e5⟩ := (hc q).2 ⟨j0, hj0m, hs0⟩
        refine ⟨arr, msk, hkeep.1.trans e1, hkeep.2.trans e2, e3, e4, ?_⟩
        intro j hj
        obtain ⟨f1, f2⟩ := e5 j hj
        obtain ⟨g1, g2⟩ := entry_succ_unreported ws q m hrm j
        exact ⟨g1 ▸ f1, g2 ▸ f2⟩
      · obtain ⟨arr, msk, e1, e2, e3, e4, e5⟩ := (hc q).2 ⟨j0, hj0, hs0⟩
        exact ⟨arr, msk, hkeep.1.trans e1, hkeep.2.trans e2, e3, e4, e5⟩
  · -- worker m reported v for q
    have hset := (addInfo_lookup ws.length m info hnd acc q).2 v hq
    have hrm : reportedVal ws q m = some v := by
      unfold reportedVal
      rw [hm]
      exact hq
    constructor
    · intro hall
      have := hall m (by omega)
      rw [hrm] at this
      exact Option.noConfusion this
    · intro _
      rcases hc with hc | hc
      · rcases hvals : acc.vals q with _ | arr0
        · -- fresh default arrays; nobody before m reported q
          have hnone : ∀ j, j < m → reportedVal ws q j = none := by
            intro j hj
            rcases hrj : reportedVal ws q j with _ | w
            · rfl
            · obtain ⟨arr, msk, e1, -⟩ := (hc q).2 ⟨j, hj, by simp [hrj]⟩
              rw [hvals] at e1
              exact Option.noConfusion e1
          have harr : arrOr ws.length acc q = List.replicate ws.length none := by
            simp [arrOr, hvals]
          have hmsk : mskOr ws.length acc q = List.replicate ws.length false := by
            simp [mskOr, hvals]
          refine ⟨(arrOr ws.length acc q).set m (some v),
            (mskOr ws.length acc q).set m true, hset.1, hset.2,
            by simp [harr], by simp [hmsk], ?_⟩
          intro j hj
          have hv1 := setEntries (arrOr ws.length acc q) ws.length (fun _ => none)
            (by simp [harr])
            (by intro j2 hj2; rw [harr, listGetReplicate]; simp [hj2])
            m hmlen (some v) j hj
          have hv2 := setEntries (mskOr ws.length acc q) ws.length (fun _ => false)
            (by simp [hmsk])
            (by intro j2 hj2; rw [hmsk, listGetReplicate]; simp [hj2])
            m hmlen true j hj
          rw [hv1, hv2]
          constructor
          · refine congrArg some ?_
            rw [entryVal_succ]
            by_cases hjm : j = m
            · simp [hjm, hrm]
            · simp only [if_neg hjm]
              unfold entryVal
              by_cases hjm' : j < m
              · simp [hjm', hnone j hjm']
              · simp [hjm']
          · refine congrArg some ?_
            rw [entryMsk_succ]
            by_cases hjm : j = m
            · simp [hjm, hrm]
            · simp only [if_neg hjm]
              unfold entryMsk
              by_cases hjm' : j < m
              · simp [hjm', hnone j hjm']
              · simp [hjm']
        · -- existing arrays under the invariant at m
          have hsome : ∃ j, j < m ∧ (reportedVal ws q j).isSome := by
            by_contra hh
            push_neg at hh
            have hall : ∀ j, j < m → reportedVal ws q j = none := by
              intro j hj
              rcases hrj : reportedVal ws q j with _ | w
              · rfl
              · exact absurd (by simp [hrj] : (reportedVal ws q j).isSome = true) (hh j hj)
            obtain ⟨e1, -⟩ := (hc q).1 hall
            rw [hvals] at e1
            exact Option.noConfusion e1
          obtain ⟨arr, msk, e1, e2, e3, e4, e5⟩ := (hc q).2 hsome
          have harr : arrOr ws.length acc q = arr := by simp [arrOr, e1]
          have hmsk : mskOr ws.length acc q = msk := by simp [mskOr, e1, e2]
          refine ⟨(arrOr ws.length acc q).set m (some v),
            (mskOr ws.length acc q).set m true, hset.1, hset.2,
            by simp [harr, e3], by simp [hmsk, e4], ?_⟩
          intro j hj
          have hv1 := setEntries (arrOr ws.length acc q) ws.length
            (fun j2 => entryVal ws q m j2) (by simp [harr, e3])
            (by intro j2 hj2; rw [harr]; exact (e5 j2 hj2).1) m hmlen (some v) j hj
          have hv2 := setEntries (mskOr ws.length acc q) ws.length
            (fun j2 => entryMsk ws q m j2) (by simp [hmsk, e4])
            (by intro j2 hj2; rw [hmsk]; exact (e5 j2 hj2).2) m hmlen true j hj
          rw [hv1, hv2]
          constructor
          · refine congrArg some ?_
            rw [entryVal_succ]
            by_cases hjm : j = m
            · simp [hjm, hrm]
            · simp [hjm]
          · refine congrArg some ?_
            rw [entryMsk_succ]
            by_cases hjm : j = m
            · simp [hjm, hrm]
            · simp [hjm]
      · -- invariant already at m + 1: rewriting worker m's slot is a no-op
        obtain ⟨arr, msk, e1, e2, e3, e4, e5⟩ := (hc q).2 ⟨m, by omega, by simp [hrm]⟩
        have harr : arrOr ws.length acc q = arr := by simp [arrOr, e1]
        have hmsk : mskOr ws.length acc q = msk := by simp [mskOr, e1, e2]
        refine ⟨(arrOr ws.length acc q).set m (some v),
          (mskOr ws.length acc q).set m true, hset.1, hset.2,
          by simp [harr, e3], by simp [hmsk, e4], ?_⟩
        intro j hj
        have hv1 := setEntries (arrOr ws.length acc q) ws.length
          (fun j2 => entryVal ws q (m + 1) j2) (by simp [harr, e3])
          (by intro j2 hj2; rw [harr]; exact (e5 j2 hj2).1) m hmlen (some v) j hj
        have hv2 := setEntries (mskOr ws.length acc q) ws.length
          (fun j2 => entryMsk ws q (m + 1) j2) (by simp [hmsk, e4])
          (by intro j2 hj2; rw [hmsk]; exact (e5 j2 hj2).2) m hmlen true j hj
        rw [hv1, hv2]
        constructor
        · refine congrArg some ?_
          by_cases hjm : j = m
          · subst hjm; simp [entryVal, hrm]
          · simp [hjm]
        · refine congrArg some ?_
          by_cases hjm : j = m
          · subst hjm; simp [entryMsk, hrm]
          · simp [hjm]

/-- Helper: the per-agent repetition of `_add_info` (run at least once)
advances the invariant by one worker. -/
theorem infosChar_fold (ws : List (List (String × V))) (m : Nat)
    (info : List (String × V)) (hm : ws.get? m = some info)
    (hnd : (info.map Prod.fst).Nodup) :
    ∀ (n : Nat), 0 < n → ∀ (acc : InfoArrays V), InfosChar ws m acc →
      InfosChar ws (m + 1)
        ((List.range n).foldl (fun a _ => addInfo ws.length a info m) acc) := by
  intro n
  induction n with
  | zero => intro h; omega
  | succ k ih =>
    intro _ acc hc
    rw [List.range_succ, List.foldl_append, List.foldl_cons, List.foldl_nil]
    rcases Nat.eq_zero_or_pos k with hk | hk
    · subst hk
      simpa using infosChar_step ws m info hm hnd acc (Or.inl hc)
    · exact infosChar_step ws m info hm hnd _ (Or.inr (ih hk acc hc))

/-- Helper: the invariant holds before any worker is processed. -/
theorem infosChar_zero (ws : List (List (String × V))) :
    InfosChar ws 0 (emptyInfos V) := by
  intro q
  exact ⟨fun _ => ⟨rfl, rfl⟩, fun h => absurd h (by simp)⟩

/-- Helper: past the last worker the invariant is the full
characterization. -/
theorem infosChar_of_ge (ws : List (List (String × V))) (i : Nat)
    (hi : ws.length ≤ i) (acc : InfoArrays V) (hc : InfosChar ws i acc) :
    InfosChar ws ws.length acc := by
  intro q
  constructor
  · intro hall
    refine (hc q).1 ?_
    intro j hj
    by_cases hjl : j < ws.length
    · exact hall j hjl
    · exact reportedVal_none_of_ge ws q j (by omega)
  · intro hex
    obtain ⟨j0, hj0, hs0⟩ := hex
    obtain ⟨arr, msk, e1, e2, e3, e4, e5⟩ := (hc q).2 ⟨j0, by omega, hs0⟩
    refine ⟨arr, msk, e1, e2, e3, e4, ?_⟩
    intro j hj
    obtain ⟨f1, f2⟩ := e5 j hj
    constructor
    · rw [f1]
      congr 1
      unfold entryVal
      rw [if_pos (by omega : j < i), if_pos hj]
    · rw [f2]
      congr 1
      unfold entryMsk
      simp [hj, (by omega : j < i)]

/-- Helper: running the receive loop over the remaining workers extends
the invariant to all workers. -/
theorem stepWaitGo_char (ws : List (List (String × V))) (nAgents : Nat)
    (hn : 0 < nAgents)
    (hnd : ∀ info ∈ ws, (info.map Prod.fst).Nodup) :
    ∀ (rest : List (List (String × V))) (i : Nat) (acc : InfoArrays V),
      rest = ws.drop i → InfosChar ws i acc →
      InfosChar ws ws.length (stepWaitGo ws.length nAgents acc i rest) := by
  intro rest
  induction rest with
  | nil =>
    intro i acc hdrop hc
    have hi : ws.length ≤ i := by
      by_contra hh
      have := congrArg List.length hdrop
      simp [List.length_drop] at this
      omega
    exact infosChar_of_ge ws i hi acc hc
  | cons info rest' ih =>
    intro i acc hdrop hc
    have h0 : (ws.drop i).get? 0 = some info := by
      rw [← hdrop]
      rfl
    have hget : ws.get? i = some info := by
      rw [List.get?_drop] at h0
      simpa using h0
    have hdrop' : rest' = ws.drop (i + 1) := by
      have ht : (ws.drop i).tail = ws.drop (i + 1) := List.tail_drop ws i
      rw [← ht, ← hdrop]
      rfl
    have hmem : info ∈ ws := List.get?_mem hget
    simp only [stepWaitGo]
    exact ih (i + 1) _ hdrop'
      (infosChar_fold ws i info hget (hnd info hmem) nAgents hn acc hc)

/-- C9: `step_wait` merges the per-worker info dictionaries so that a
key reported by at least one worker maps to an array of length `N`
holding worker `j`'s value at slot `j`, paired with a boolean mask
array that is `true` exactly at the reporting workers — non-reporting
workers contribute the default slot value and a `false` mask bit, never
a key error — while a key no worker reported is absent from the merged
structure. -/
theorem C9_step_wait_info_merge (V : Type) (nAgents : Nat)
    (ws : List (List (String × V))) (hn : 0 < nAgents)
    (hnd : ∀ info ∈ ws, (info.map Prod.fst).Nodup) (q : String) :
    ((∃ j, (reportedVal ws q j).isSome) →
      ∃ arr msk, (stepWaitInfos nAgents ws).vals q = some arr ∧
        (stepWaitInfos nAgents ws).masks q = some msk ∧
        arr.length = ws.length ∧ msk.length = ws.length ∧
        ∀ j, j < ws.length →
          arr.get? j = some (reportedVal ws q j) ∧
          msk.get? j = some ((reportedVal ws q j).isSome)) ∧
    ((∀ j, reportedVal ws q j = none) →
      (stepWaitInfos nAgents ws).vals q = none ∧
      (stepWaitInfos nAgents ws).masks q = none) := by
  have hchar : InfosChar ws ws.length (stepWaitInfos nAgents ws) :=
    stepWaitGo_char ws nAgents hn hnd ws 0 (emptyInfos V) (by simp) (infosChar_zero ws)
  constructor
  · intro hex
    obtain ⟨j0, hs0⟩ := hex
    have hj0 : j0 < ws.length := by
      by_contra hh
      rw [reportedVal_none_of_ge ws q j0 (by omega)] at hs0
      simp at hs0
    obtain ⟨arr, msk, e1, e2, e3, e4, e5⟩ := (hchar q).2 ⟨j0, hj0, hs0⟩
    refine ⟨arr, msk, e1, e2, e3, e4, ?_⟩
    intro j hj
    obtain ⟨f1, f2⟩ := e5 j hj
    constructor
    · rw [f1]
      congr 1
      unfold entryVal
      rw [if_pos hj]
    · rw [f2]
      congr 1
      unfold entryMsk
      simp [hj]
  · intro hall
    exact (hchar q).1 (fun j _ => hall j)

/-- C9 witness: two workers, the first reporting key `x` only, the
second key `y` only; one agent. -/
theorem C9_step_wait_info_merge_witness :
    ∃ arr msk,
      (stepWaitInfos 1 [[("x", (3 : Nat))], [("y", 4)]]).vals "x" = some arr ∧
      (stepWaitInfos 1 [[("x", (3 : Nat))], [("y", 4)]]).masks "x" = some msk ∧
      arr.length = 2 ∧ msk.length = 2 ∧
      ∀ j, j < 2 →
        arr.get? j = some (reportedVal [[("x", (3 : Nat))], [("y", 4)]] "x" j) ∧
        msk.get? j = some ((reportedVal [[("x", (3 : Nat))], [("y", 4)]] "x" j).isSome) := by
  have h := (C9_step_wait_info_merge Nat 1 [[("x", 3)], [("y", 4)]] (by decide)
    (by decide) "x").1 ⟨0, by decide⟩
  simpa using h

/-- Helper: the slots of a zip. -/
theorem listGetZip : ∀ (l1 : List γ) (l2 : List δ) (i : Nat),
    (l1.zip l2).get? i =
      (l1.get? i).bind (fun a => (l2.get? i).map (fun b => (a, b)))
  | [], _, _ => rfl
  | _ :: _, [], 0 => rfl
  | _ :: t1, [], (i + 1) => by
    rw [List.get?_cons_succ]
    rcases t1.get? i with _ | x <;> rfl
  | _ :: _, _ :: _, 0 => rfl
  | _ :: t1, _ :: t2, (i + 1) => listGetZip t1 t2 i

/-- Helper: the parallel regime applies the stage stack to agent `a`
with the `a`-th iterated split sub-key, in mapping order. -/
theorem processParallel_get (split : K → K × K)
    (ts : List (ExperienceTransformE S E K)) :
    ∀ (ags : List (String × E)) (key : K) (a : Nat),
      (processParallel split ts key ags).get? a =
        (ags.get? a).map (fun p => (p.1, applyTransforms ts (subkeyAt split key a) p.2))
  | [], _, _ => by simp [processParallel]
  | p :: rest, key, 0 => by simp [processParallel, subkeyAt]
  | p :: rest, key, (a + 1) => by
    simpa [processParallel, subkeyAt] using
      processParallel_get split ts rest ((split key).1) a

/-- C8: the experience pipeline is a pure function of the seed and the
data (equal inputs give identical outputs); in the vectorized regime
environment column `i` is processed with the `i`-th entry of the key
list split from the single input seed, in index order, and distinct
environment indices consume distinct sub-seeds whenever the splitter
returns pairwise-distinct keys; in the parallel regime agent `a` (in
mapping order) consumes the `a`-th iterated split sub-key. -/
theorem C8_pipeline_determinism_seeds (S E K : Type)
    (splitN : K → Nat → List K) (split : K → K × K)
    (ts : List (ExperienceTransformE S E K)) (key key' : K) (cols cols' : List E)
    (ags : List (String × E)) (i j a : Nat)
    (hk : key' = key) (hcols : cols' = cols)
    (hlen : (splitN key cols.length).length = cols.length)
    (hi : i < cols.length) (hj : j < cols.length) (hij : i ≠ j)
    (hnd : (splitN key cols.length).Nodup) (ha : a < ags.length) :
    processVectorized splitN ts key' cols' = processVectorized splitN ts key cols ∧
    (processVectorized splitN ts key cols).get? i =
      ((splitN key cols.length).get? i).bind
        (fun k2 => (cols.get? i).map (fun c => applyTransforms ts k2 c)) ∧
    (splitN key cols.length).get? i ≠ (splitN key cols.length).get? j ∧
    (processParallel split ts key ags).get? a =
      (ags.get? a).map (fun p => (p.1, applyTransforms ts (subkeyAt split key a) p.2)) := by
  refine ⟨by rw [hk, hcols], ?_, ?_, processParallel_get split ts ags key a⟩
  · unfold processVectorized
    rw [List.get?_map, listGetZip]
    rcases (splitN key cols.length).get? i with _ | k2 <;>
      rcases cols.get? i with _ | c <;> rfl
  · have hi' : i < (splitN key cols.length).length := by omega
    have hj' : j < (splitN key cols.length).length := by omega
    rw [List.get?_eq_get hi', List.get?_eq_get hj']
    intro hcontra
    have h1 := Option.some.inj hcontra
    have h2 := (List.Nodup.get_inj_iff hnd).mp h1
    exact hij (by simpa using h2)

/-- C8 witness: one transform, two environment columns, one agent, with
the concrete offsetting splitter. -/
theorem C8_pipeline_determinism_seeds_witness :
    processVectorized cSplitN [cTrans] 0 [10, 20] =
      processVectorized cSplitN [cTrans] 0 [10, 20] ∧
    (processVectorized cSplitN [cTrans] 0 [10, 20]).get? 0 =
      ((cSplitN 0 [10, 20].length).get? 0).bind
        (fun k2 => ([10, 20].get? 0).map (fun c => applyTransforms [cTrans] k2 c)) ∧
    (cSplitN 0 [10, 20].length).get? 0 ≠ (cSplitN 0 [10, 20].length).get? 1 ∧
    (processParallel natSplit [cTrans] 0 [("a0", 5)]).get? 0 =
      ([("a0", (5 : Nat))].get? 0).map
        (fun p => (p.1, applyTransforms [cTrans] (subkeyAt natSplit 0 0) p.2)) :=
  C8_pipeline_determinism_seeds Unit Nat Nat cSplitN natSplit [cTrans] 0 0
    [10, 20] [10, 20] [("a0", 5)] 0 1 0 rfl rfl (by decide)
    (by decide) (by decide) (by decide) (by decide) (by decide)

/-- Helper: the leaves of a Polyak update. -/
theorem incrementalUpdate_get (tau : ℚ) : ∀ (ns os2 : Params) (i : Nat),
    (incrementalUpdate tau ns os2).get? i =
      (ns.get? i).bind (fun x =>
        (os2.get? i).map (fun y => tau * x + (1 - tau) * y))
  | [], _, _ => rfl
  | _ :: _, [], 0 => rfl
  | _ :: ns, [], (i + 1) => by
    rw [List.get?_cons_succ]
    rcases ns.get? i with _ | x <;> rfl
  | _ :: _, _ :: _, 0 => rfl
  | _ :: ns, _ :: os2, (i + 1) => incrementalUpdate_get tau ns os2 i

/-- C6: both factories initialize each sub-state's target parameters to
exactly its live parameters (live and target come from `init_params`
with the same key, and the tabulate flag does not change the value);
thereafter, every update operation either leaves a sub-state's target
untouched (the qvalue gradient steps, and the TD3 off-frequency calls)
or replaces it by the Polyak smoothing of the current live params into
the old target with coefficient tau — never any other overwrite. -/
theorem C6_target_init_polyak_only (OS B K : Type)
    (split : K → K × K) (split3 : K → K × K × K)
    (initPolicy initQvalue initAlpha : K → Params) (osP osQ osA : OS)
    (key : K) (tab : Bool)
    (optQ optP optA : OptimizerE OS) (lgQ : LossGrad B) (lgP : LossGrad2 B)
    (lgP3 : LossGrad3 B) (lgA : LossGradA B K) (tau : ℚ) (freq step : Nat)
    (ps qs : TrainStateE OS) (st : SACStateE OS) (batch : B) (akey : K) :
    ((td3Factory split initPolicy initQvalue osP osQ key tab).policy.target_params =
        (td3Factory split initPolicy initQvalue osP osQ key tab).policy.params ∧
      (td3Factory split initPolicy initQvalue osP osQ key tab).qvalue.target_params =
        (td3Factory split initPolicy initQvalue osP osQ key tab).qvalue.params ∧
      (sacFactory split3 initPolicy initQvalue initAlpha osP osQ osA key tab).policy.target_params =
        (sacFactory split3 initPolicy initQvalue initAlpha osP osQ osA key tab).policy.params ∧
      (sacFactory split3 initPolicy initQvalue initAlpha osP osQ osA key tab).qvalue.target_params =
        (sacFactory split3 initPolicy initQvalue initAlpha osP osQ osA key tab).qvalue.params) ∧
    ((td3UpdateQvalue optQ lgQ qs batch).1.target_params = qs.target_params ∧
      (sacUpdateQvalue optQ lgQ qs batch).1.target_params = qs.target_params) ∧
    ((td3UpdatePolicy optP lgP tau ps qs batch).1.1.target_params =
        incrementalUpdate tau
          (td3UpdatePolicy optP lgP tau ps qs batch).1.1.params ps.target_params ∧
      (td3UpdatePolicy optP lgP tau ps qs batch).1.2.target_params =
        incrementalUpdate tau qs.params qs.target_params ∧
      (sacUpdatePolicy optP lgP3 tau ps qs st.alpha.params batch).1.1.target_params =
        incrementalUpdate tau
          (sacUpdatePolicy optP lgP3 tau ps qs st.alpha.params batch).1.1.params
          ps.target_params ∧
      (sacUpdatePolicy optP lgP3 tau ps qs st.alpha.params batch).1.2.target_params =
        incrementalUpdate tau qs.params qs.target_params) ∧
    ((td3UpdateStep optQ optP lgQ lgP tau freq step ps qs batch).1.target_params =
        qs.target_params ∨
      (td3UpdateStep optQ optP lgQ lgP tau freq step ps qs batch).1.target_params =
        incrementalUpdate tau
          (td3UpdateStep optQ optP lgQ lgP tau freq step ps qs batch).1.params
          qs.target_params) ∧
    ((td3UpdateStep optQ optP lgQ lgP tau freq step ps qs batch).2.1.target_params =
        ps.target_params ∨
      (td3UpdateStep optQ optP lgQ lgP tau freq step ps qs batch).2.1.target_params =
        incrementalUpdate tau
          (td3UpdateStep optQ optP lgQ lgP tau freq step ps qs batch).2.1.params
          ps.target_params) ∧
    (sacUpdateStep optQ optP optA lgQ lgP3 lgA tau akey st batch).1.policy.target_params =
      incrementalUpdate tau
        (sacUpdateStep optQ optP optA lgQ lgP3 lgA tau akey st batch).1.policy.params
        st.policy.target_params ∧
    (sacUpdateStep optQ optP optA lgQ lgP3 lgA tau akey st batch).1.qvalue.target_params =
      incrementalUpdate tau
        (sacUpdateStep optQ optP optA lgQ lgP3 lgA tau akey st batch).1.qvalue.params
        st.qvalue.target_params := by
  refine ⟨⟨rfl, rfl, rfl, rfl⟩, ⟨rfl, rfl⟩, ⟨rfl, rfl, rfl, rfl⟩, ?_, ?_, rfl, rfl⟩
  · by_cases h : step % freq = 0
    · right
      simp [td3UpdateStep, h, td3UpdatePolicy, td3UpdateQvalue]
    · left
      simp [td3UpdateStep, h, td3UpdateQvalue]
  · by_cases h : step % freq = 0
    · right
      simp [td3UpdateStep, h, td3UpdatePolicy, td3UpdateQvalue]
    · left
      simp [td3UpdateStep, h]

/-- C2 counterexample: TD3 with policy_update_frequency 2, on update
call step 1: the qvalue sub-state's live params receive a gradient step
(they change), yet its target params are left untouched and do not
equal the tau-convex combination the claim requires after every
gradient step. -/
theorem C2_counterexample :
    ((td3UpdateStep cOpt cOpt cLgQ cLgP (1 / 2) 2 1 cPs cQs ()).1.params ≠ cQs.params) ∧
    ((td3UpdateStep cOpt cOpt cLgQ cLgP (1 / 2) 2 1 cPs cQs ()).1.target_params =
      cQs.target_params) ∧
    ((td3UpdateStep cOpt cOpt cLgQ cLgP (1 / 2) 2 1 cPs cQs ()).1.target_params ≠
      incrementalUpdate (1 / 2)
        (td3UpdateStep cOpt cOpt cLgQ cLgP (1 / 2) 2 1 cPs cQs ()).1.params
        cQs.target_params) := by
  refine ⟨?_, rfl, ?_⟩
  · intro h
    simp [td3UpdateStep, td3UpdateQvalue, cOpt, cLgQ, cQs] at h
  · intro h
    simp [td3UpdateStep, td3UpdateQvalue, incrementalUpdate, cOpt, cLgQ, cQs] at h

/-- C2 (amended): in SAC every update step Polyak-updates both targeted
sub-states with the new live params and the fixed tau (leafwise each
target leaf becomes `tau*live + (1-tau)*old_target`); in TD3 the qvalue
sub-state receives a gradient step on every update call, but both
target updates run only on calls with
`step % policy_update_frequency == 0` — on those calls each target
becomes exactly the tau-convex combination of the new live params and
the old target, and on other calls both targets are left unchanged. -/
theorem C2_target_update_rule (OS B K : Type) (optQ optP optA : OptimizerE OS)
    (lgQ : LossGrad B) (lgP : LossGrad2 B) (lgP3 : LossGrad3 B) (lgA : LossGradA B K)
    (tau : ℚ) (freq step : Nat) (hfreq : 0 < freq)
    (ps qs : TrainStateE OS) (st : SACStateE OS) (batch : B) (akey : K) :
    ((sacUpdateStep optQ optP optA lgQ lgP3 lgA tau akey st batch).1.policy.target_params =
        incrementalUpdate tau
          (sacUpdateStep optQ optP optA lgQ lgP3 lgA tau akey st batch).1.policy.params
          st.policy.target_params ∧
      (sacUpdateStep optQ optP optA lgQ lgP3 lgA tau akey st batch).1.qvalue.target_params =
        incrementalUpdate tau
          (sacUpdateStep optQ optP optA lgQ lgP3 lgA tau akey st batch).1.qvalue.params
          st.qvalue.target_params ∧
      ∀ idx,
        ((sacUpdateStep optQ optP optA lgQ lgP3 lgA tau akey st batch).1.policy.target_params).get? idx =
          (((sacUpdateStep optQ optP optA lgQ lgP3 lgA tau akey st batch).1.policy.params).get? idx).bind
            (fun x => ((st.policy.target_params).get? idx).map
              (fun y => tau * x + (1 - tau) * y))) ∧
    (step % freq = 0 →
      (td3UpdateStep optQ optP lgQ lgP tau freq step ps qs batch).1.target_params =
        incrementalUpdate tau
          (td3UpdateStep optQ optP lgQ lgP tau freq step ps qs batch).1.params
          qs.target_params ∧
      (td3UpdateStep optQ optP lgQ lgP tau freq step ps qs batch).2.1.target_params =
        incrementalUpdate tau
          (td3UpdateStep optQ optP lgQ lgP tau freq step ps qs batch).2.1.params
          ps.target_params) ∧
    (step % freq ≠ 0 →
      (td3UpdateStep optQ optP lgQ lgP tau freq step ps qs batch).1.target_params =
        qs.target_params ∧
      (td3UpdateStep optQ optP lgQ lgP tau freq step ps qs batch).2.1.target_params =
        ps.target_params) := by
  refine ⟨⟨rfl, rfl, ?_⟩, ?_, ?_⟩
  · intro idx
    rw [show (sacUpdateStep optQ optP optA lgQ lgP3 lgA tau akey st batch).1.policy.target_params =
      incrementalUpdate tau
        (sacUpdateStep optQ optP optA lgQ lgP3 lgA tau akey st batch).1.policy.params
        st.policy.target_params from rfl]
    exact incrementalUpdate_get tau _ _ idx
  · intro h
    constructor
    · simp [td3UpdateStep, h, td3UpdatePolicy, td3UpdateQvalue]
    · simp [td3UpdateStep, h, td3UpdatePolicy, td3UpdateQvalue]
  · intro h
    constructor
    · simp [td3UpdateStep, h, td3UpdateQvalue]
    · simp [td3UpdateStep, h]

/-- C2 witness: the amended rule evaluated on the concrete optimizer
and losses — an on-frequency TD3 call (step 2), an off-frequency call
(step 1), and a SAC call. -/
theorem C2_target_update_rule_witness :
    ((td3UpdateStep cOpt cOpt cLgQ cLgP (1 / 2) 2 2 cPs cQs ()).1.target_params =
      incrementalUpdate (1 / 2)
        (td3UpdateStep cOpt cOpt cLgQ cLgP (1 / 2) 2 2 cPs cQs ()).1.params
        cQs.target_params) ∧
    ((td3UpdateStep cOpt cOpt cLgQ cLgP (1 / 2) 2 1 cPs cQs ()).1.target_params =
      cQs.target_params) ∧
    ((sacUpdateStep cOpt cOpt cOpt cLgQ cLgP3 cLgA (1 / 2) 0 cSacSt ()).1.policy.target_params =
      incrementalUpdate (1 / 2)
        (sacUpdateStep cOpt cOpt cOpt cLgQ cLgP3 cLgA (1 / 2) 0 cSacSt ()).1.policy.params
        cSacSt.policy.target_params) := by
  refine ⟨((C2_target_update_rule Unit Unit Nat cOpt cOpt cOpt cLgQ cLgP cLgP3 cLgA
      (1 / 2) 2 2 (by decide) cPs cQs cSacSt () 0).2.1 (by decide)).1,
    ((C2_target_update_rule Unit Unit Nat cOpt cOpt cOpt cLgQ cLgP cLgP3 cLgA
      (1 / 2) 2 1 (by decide) cPs cQs cSacSt () 0).2.2 (by decide)).1,
    (C2_target_update_rule Unit Unit Nat cOpt cOpt cOpt cLgQ cLgP cLgP3 cLgA
      (1 / 2) 2 2 (by decide) cPs cQs cSacSt () 0).1.1⟩

/-- C3 counterexample: SAC's evaluation entry point `select_action` is
`explore` itself, so its output depends on the sampling key: with the
concrete key-dependent sampler, two keys give two different actions —
the evaluation entry point applies the training-time exploration
sampling rather than a deterministic noise-free choice. -/
theorem C3_counterexample :
    sacSelectAction cSample cPs 5 0 (fun _ => 0) 0 0 () ≠
      sacSelectAction cSample cPs 5 0 (fun _ => 0) 1 1 () := by
  intro h
  simp [sacSelectAction, sacExplore, sacExploreFn, cSample, clipQ] at h
  norm_num at h

/-- C3 (amended): DQN's `select_action` passes zero epsilon, so it
returns the greedy argmax action whenever the drawn uniform is
positive, while `explore` passes the configured epsilon and picks the
random action whenever the draw is below it; TD3's `select_action`
passes zero noise, making its output independent of the key, while
`explore` (past `start_step`) adds the configured noise times the
key's normal draw before clipping; SAC's `select_action`, however, is
the training entry point itself — it applies the same stochastic
sampling (and pre-`start_step` uniform override) as `explore`. -/
theorem C3_select_action_vs_explore (O K OS : Type) (m : DQNModel O K)
    (params : Params) (key : K) (obs : O) (eps : ℚ)
    (mean : Params → O → ℚ) (gauss : K → ℚ) (ps : TrainStateE OS)
    (noise : ℚ) (step sstep : Nat) (unifA : K → ℚ) (k1 k2 ukey : K)
    (sample : Params → O → K → ℚ) (obs2 : O) :
    (0 < m.unif (m.split key).1 →
      dqnSelectAction m params key obs = (idxOfMax (m.qvalues params obs), 0)) ∧
    (m.unif (m.split key).1 ≤ eps →
      dqnExplore m params key obs eps = (m.randint (m.split key).2, 0)) ∧
    (td3SelectAction mean gauss ps k1 obs2 = td3SelectAction mean gauss ps k2 obs2) ∧
    (sstep ≤ step →
      td3Explore mean gauss ps noise step sstep unifA k1 ukey obs2 =
        clipQ (-1) 1 (mean ps.params obs2 + noise * gauss k1)) ∧
    (sacSelectAction sample ps step sstep unifA k1 ukey obs2 =
      sacExplore sample ps step sstep unifA k1 ukey obs2) := by
  refine ⟨?_, ?_, ?_, ?_, rfl⟩
  · intro h
    simp [dqnSelectAction, dqnExploreFn, not_le.mpr h]
  · intro h
    simp [dqnExplore, dqnExploreFn, h]
  · simp [td3SelectAction, td3ExploreFn, td3Sample]
  · intro h
    simp [td3Explore, td3ExploreFn, td3Sample, Nat.not_lt.mpr h]

/-- C3 witness: the amended statement on the concrete DQN bundle
(uniform draw 1/2, epsilon 1), the concrete TD3 policy, and the
concrete SAC sampler. -/
theorem C3_select_action_vs_explore_witness :
    (dqnSelectAction cDqn [] 7 () = (idxOfMax (cDqn.qvalues [] ()), 0)) ∧
    (dqnExplore cDqn [] 7 () 1 = (cDqn.randint (cDqn.split 7).2, 0)) ∧
    (td3SelectAction (fun _ _ => 0) (fun k => k) cPs 3 () =
      td3SelectAction (fun _ _ => 0) (fun k => k) cPs 4 ()) ∧
    (td3Explore (fun _ _ => 0) (fun k => k) cPs (1 / 4) 3 0 (fun _ => 0) 3 9 () =
      clipQ (-1) 1 ((0 : ℚ) + (1 / 4) * (3 : Nat))) ∧
    (sacSelectAction cSample cPs 3 0 (fun _ => 0) 3 9 () =
      sacExplore cSample cPs 3 0 (fun _ => 0) 3 9 ()) := by
  obtain ⟨h1, h2, h3, h4, h5⟩ := C3_select_action_vs_explore Unit Nat Unit cDqn [] 7 () 1
    (fun _ _ => 0) (fun k => k) cPs (1 / 4) 3 0 (fun _ => 0) 3 4 9 cSample ()
  exact ⟨h1 (by norm_num [cDqn, natSplit]), h2 (by norm_num [cDqn, natSplit]),
    h3, h4 (by norm_num), h5⟩

/-- Helper: whatever branch `SaverContext.update` takes, the context it
returns has recorded `(step, state)`. -/
theorem saverUpdate_fst (c : SaverContext St) (step : Nat) (st : St) :
    (saverUpdate c step st).1 = { c with curStep := step, curState := some st } := by
  unfold saverUpdate
  split
  · rfl
  · split
    · rfl
    · split <;> rfl

/-- Helper: after a nonempty run of updates, exit persists the last
recorded pair. -/
theorem saverRun_exit_getLast (c : SaverContext St) (l : List (Nat × St))
    (h : l ≠ []) : saverExit (saverRun c l) = l.getLast? := by
  induction l generalizing c with
  | nil => exact absurd rfl h
  | cons p tl ih =>
    cases tl with
    | nil =>
      simp only [saverRun, List.foldl_cons, List.foldl_nil, saverUpdate_fst]
      rfl
    | cons q tl' =>
      have := ih (c := (saverUpdate c p.1 p.2).1) (by simp)
      simp only [saverRun, List.foldl_cons] at this ⊢
      rw [this]
      rfl

/-- C1 counterexample: a pool whose `waiting` flag is set (a step
request is pending); calling `step_async` again returns successfully
with the extra step message queued, instead of raising a
pending-request protocol error. -/
theorem C1_counterexample :
    (SubProcVec.mk 1 true false ([] : List (PoolMsg Unit))).waiting = true ∧
    stepAsync (SubProcVec.mk 1 true false ([] : List (PoolMsg Unit)))
        [("agent_0", [()])] =
      Except.ok (SubProcVec.mk 1 true false [PoolMsg.step [("agent_0", some ())]]) :=
  ⟨rfl, rfl⟩

/-- C1 (amended): `step_async` performs no pending-request check and
has no error path: for every pool state — in particular one whose
`waiting` flag is already set — it returns successfully, appends
exactly one `step` message per worker in worker order (worker `i`
receiving its slice of the action dictionary) and sets the `waiting`
flag. -/
theorem C1_step_async_no_pending_check (A : Type) (s : SubProcVec A)
    (actions : List (String × List A)) :
    stepAsync s actions =
      Except.ok { s with
        msgLog := s.msgLog ++ (List.range s.numEnvs).map
          (fun i => PoolMsg.step (actions.map (fun p => (p.1, p.2.get? i)))),
        waiting := true } := by
  simp only [stepAsync, List.map_map]
  rfl

/-- C10 counterexample: with save frequency `0` — which is non-negative,
and step `0` is a multiple of `0` — `update(0, state)` persists nothing:
it raises a `ZeroDivisionError` evaluating `step % 0`. -/
theorem C10_counterexample :
    (0 : Int) ≤ (saverInit Unit 0).saveFrequency ∧
    ((saverInit Unit 0).saveFrequency ∣ ((0 : Nat) : Int)) ∧
    (saverUpdate (saverInit Unit 0) 0 ()).2 = Except.error () ∧
    (saverUpdate (saverInit Unit 0) 0 ()).2 ≠ Except.ok true := by
  refine ⟨le_refl 0, Dvd.intro 0 rfl, rfl, ?_⟩
  intro h
  simp [saverUpdate, saverInit] at h

/-- C10 (amended): `update(step, state)` persists a checkpoint iff the
save frequency is positive and `step` is a multiple of it (a zero
frequency instead raises a division error, and a negative one never
saves); the context always records `(step, state)` regardless; a fresh
context exits without persisting anything, and after at least one
recorded update, exit persists exactly the most recently recorded
`(step, state)` pair, whatever the frequency. -/
theorem C10_saver_update_exit (St : Type) (f : Int) (c : SaverContext St)
    (step : Nat) (st : St) (l : List (Nat × St)) :
    ((saverUpdate c step st).2 = Except.ok true ↔
      0 < c.saveFrequency ∧ c.saveFrequency ∣ (step : Int)) ∧
    ((saverUpdate c step st).2 = Except.error () ↔ c.saveFrequency = 0) ∧
    (saverUpdate c step st).1 = { c with curStep := step, curState := some st } ∧
    saverExit (saverInit St f) = none ∧
    (l ≠ [] → saverExit (saverRun (saverInit St f) l) = l.getLast?) := by
  refine ⟨?_, ?_, saverUpdate_fst c step st, rfl,
    saverRun_exit_getLast (saverInit St f) l⟩
  · rcases lt_trichotomy c.saveFrequency 0 with h | h | h
    · simp [saverUpdate, h, not_lt_of_gt h, h.ne]
    · simp [saverUpdate, h]
    · have h1 : ¬ c.saveFrequency < 0 := not_lt_of_gt h
      have h2 : c.saveFrequency ≠ 0 := h.ne'
      by_cases h3 : (step : Int) % c.saveFrequency = 0
      · simp [saverUpdate, h1, h2, h3, h, Int.emod_emod_of_dvd]
        exact Int.dvd_of_emod_eq_zero h3
      · simp [saverUpdate, h1, h2, h3, h]
        intro hd
        exact h3 (Int.emod_eq_zero_of_dvd hd)
  · rcases lt_trichotomy c.saveFrequency 0 with h | h | h
    · simp [saverUpdate, h, h.ne]
    · simp [saverUpdate, h]
    · have h1 : ¬ c.saveFrequency < 0 := not_lt_of_gt h
      have h2 : c.saveFrequency ≠ 0 := h.ne'
      by_cases h3 : (step : Int) % c.saveFrequency = 0 <;>
        simp [saverUpdate, h1, h2, h3]

/-- C10 witness: with frequency `3`, `update(6, state)` persists, and a
run recording one update at step `1` persists `(1, state)` on exit. -/
theorem C10_saver_update_exit_witness :
    (saverUpdate (saverInit Unit 3) 6 ()).2 = Except.ok true ∧
    saverExit (saverRun (saverInit Unit 3) [(1, ())]) = some (1, ()) := by
  refine ⟨((C10_saver_update_exit Unit 3 (saverInit Unit 3) 6 () [(1, ())]).1).mpr
    ⟨by norm_num [saverInit], by norm_num [saverInit]⟩, ?_⟩
  have h := (C10_saver_update_exit Unit 3 (saverInit Unit 3) 6 () [(1, ())]).2.2.2.2
    (by simp)
  simpa using h

end FlaxRL
